import Mathlib

/-!
Verification of the trace-analysis core of the benchmark repository.

The Python source (`scripts/trace_parser.py`, `scripts/trace_statistics.py`)
is shallowly embedded below.  Numeric values (timestamps and durations in
microseconds, results in milliseconds) are modelled with `ℚ`; all divisions
by 1000 performed by the source are exact on the inputs of interest.
Possibly-missing JSON keys are modelled with `Option`; Python code that
raises (`span['id']`, dict-comprehension key errors, loader failures) is
modelled with `Except String`.
-/

namespace TraceBench

/-- One raw Zipkin span record.  Every field that the source reads through
`span.get(...)` or may find absent is an `Option`; `tags` is a string map. -/
structure Span where
  id : Option String
  parentId : Option String
  name : Option String
  timestamp : Option ℚ
  duration : Option ℚ
  traceId : Option String
  tags : List (String × String) := []
deriving DecidableEq, Repr

/-- A trace is a list of span records (one JSON array of spans). -/
abbrev Trace := List Span

/-- `pat` is a prefix of a character list (Python `str.startswith`). -/
def isPrefixChars : List Char → List Char → Bool
  | [], _ => true
  | _ :: _, [] => false
  | p :: ps, c :: cs => p == c && isPrefixChars ps cs

/-- `pat in s` substring test on character lists (Python `in` on strings). -/
def containsChars : List Char → List Char → Bool
  | [], pat => pat.isEmpty
  | s@(_ :: cs), pat => isPrefixChars pat s || containsChars cs pat

/-- `span.get('name', '')` followed by `.lower()`, as a character list (the
span names of interest are ASCII, where Python `str.lower` is the
characterwise lowering). -/
def nameLower (s : Span) : List Char := (s.name.getD "").data.map Char.toLower

/-- `span.get('timestamp', 0) / 1000` — start time in milliseconds. -/
def startMs (s : Span) : ℚ := s.timestamp.getD 0 / 1000

/-- `span.get('duration', 0) / 1000` — duration in milliseconds. -/
def durMs (s : Span) : ℚ := s.duration.getD 0 / 1000

/-- `any(span.get('name','').lower().startswith(pattern) for pattern in patterns)`. -/
def matchesAny (patterns : List String) (s : Span) : Bool :=
  patterns.any (fun p => isPrefixChars p.data (nameLower s))

/-- `trace[0].get('traceId', '')` (with `''` for an empty trace, matching the
guarded uses in the source). -/
def firstTraceId (trace : Trace) : String :=
  ((trace.head?).map (fun s => s.traceId.getD "")).getD ""

/-! ## Interval-union critical I/O (`_get_critical_io_union_intervals`, `_merge_intervals`) -/

/-- The interval dictionary built for each matching span; `stop` is the
source's `end` key (a Lean keyword).  `mergedSpans` models the optional
`merged_spans` debugging key (`[]` = key absent). -/
structure Interval where
  start : ℚ
  stop : ℚ
  duration : ℚ
  spanId : String
  spanName : String
  mergedSpans : List String := []
deriving DecidableEq, Repr

/-- The merging assignment performed when `next_interval['start'] <= current_interval['end']`. -/
def mergeStep (current next : Interval) : Interval :=
  let newStop := max current.stop next.stop
  { current with
    stop := newStop
    duration := newStop - current.start
    mergedSpans :=
      (if current.mergedSpans = [] then [current.spanId] else current.mergedSpans)
        ++ [next.spanId] }

/-- The loop of `_merge_intervals`, with `current` the current open interval. -/
def mergeIntervalsGo : Interval → List Interval → List Interval
  | current, [] => [current]
  | current, next :: rest =>
    if next.start ≤ current.stop then mergeIntervalsGo (mergeStep current next) rest
    else current :: mergeIntervalsGo next rest

/-- `_merge_intervals`: merge overlapping intervals of a start-sorted list. -/
def mergeIntervals : List Interval → List Interval
  | [] => []
  | first :: rest => mergeIntervalsGo first rest

/-- The interval dictionary built from one span (given its extracted `id`). -/
def mkInterval (s : Span) (sid : String) : Interval :=
  { start := startMs s
    stop := startMs s + durMs s
    duration := durMs s
    spanId := sid
    spanName := s.name.getD "N/A" }

/-- The `io_spans` selection: spans whose lower-cased name starts with one of
the patterns. -/
def ioSpansOf (patterns : List String) (trace : Trace) : List Span :=
  trace.filter (matchesAny patterns)

/-- The interval-building loop; `span['id']` raises `KeyError` when absent. -/
def buildIntervals : List Span → Except String (List Interval)
  | [] => .ok []
  | s :: rest =>
    match s.id with
    | none => .error "KeyError: id"
    | some sid => (buildIntervals rest).map (fun tail => mkInterval s sid :: tail)

/-- `intervals.sort(key=lambda x: x['start'])`.  Python's `sort` is a stable
sort; `List.insertionSort` is the (unique) stable sort by the same key. -/
def sortIntervals (l : List Interval) : List Interval :=
  l.insertionSort (fun a b => a.start ≤ b.start)

/-- One per-trace result record appended to `critical_io_values`. -/
structure CritRecord where
  traceId : String
  criticalIoMs : ℚ
  spansCount : ℕ
  executionPattern : String
deriving DecidableEq, Repr

/-- The per-trace body of `_get_critical_io_union_intervals`. -/
def traceCriticalIoUnion (patterns : List String) (trace : Trace) : Except String CritRecord :=
  if trace = [] then
    .ok { traceId := "", criticalIoMs := 0, spansCount := 0, executionPattern := "no_trace" }
  else
    let ioSpans := ioSpansOf patterns trace
    if ioSpans = [] then
      .ok { traceId := firstTraceId trace, criticalIoMs := 0, spansCount := 0
            executionPattern := "no_io_spans" }
    else
      (buildIntervals ioSpans).map (fun intervals =>
        let merged := mergeIntervals (sortIntervals intervals)
        { traceId := firstTraceId trace
          criticalIoMs := (merged.map Interval.duration).sum
          spansCount := ioSpans.length
          executionPattern := "union_intervals" })

/-- `_get_critical_io_union_intervals` over the stored trace list; a raised
per-trace exception propagates and aborts the whole computation. -/
def getCriticalIoUnionIntervals (patterns : List String) : List Trace → Except String (List CritRecord)
  | [] => .ok []
  | t :: rest =>
    (traceCriticalIoUnion patterns t).bind (fun r =>
      (getCriticalIoUnionIntervals patterns rest).map (fun rs => r :: rs))

/-! ## Benchmark-trace test and warm-up exclusion
(`_is_benchmark_trace`, `_exclude_warmup_iterations`) -/

/-- `_is_benchmark_trace`: some span has a `name` containing both `'http'`
and `'benchmark/analyze'` (lower-cased). -/
def isBenchmarkTrace (trace : Trace) : Bool :=
  trace.any (fun s =>
    s.name.isSome && containsChars (nameLower s) "http".data
      && containsChars (nameLower s) "benchmark/analyze".data)

/-- `span.get('timestamp', float('inf'))` as the sort key ingredient. -/
def spanTsKey (s : Span) : WithTop ℚ :=
  match s.timestamp with
  | some q => (q : WithTop ℚ)
  | none => ⊤

/-- `min(span.get('timestamp', float('inf')) for span in trace)` (the source
only evaluates this on non-empty benchmark traces). -/
def traceMinTs (trace : Trace) : WithTop ℚ :=
  match trace.map spanTsKey with
  | [] => ⊤
  | x :: xs => xs.foldl min x

/-- `benchmark_traces.sort(key=...)`: the qualifying traces, stably sorted by
minimum span start-timestamp ascending (Python's stable `sort`). -/
def sortedBenchmarkTraces (traces : List Trace) : List Trace :=
  (traces.filter isBenchmarkTrace).insertionSort (fun a b => traceMinTs a ≤ traceMinTs b)

/-- `warmup_trace_ids`: first-span trace ids of the first `warmupIterations`
sorted qualifying traces. -/
def warmupIdsOf (warmupIterations : ℤ) (traces : List Trace) : List String :=
  ((sortedBenchmarkTraces traces).take warmupIterations.toNat).map firstTraceId

/-- `_exclude_warmup_iterations` acting on the loaded trace list. -/
def excludeWarmupIterations (warmupIterations : ℤ) (traces : List Trace) : List Trace :=
  if warmupIterations ≤ 0 then traces
  else
    let benchmarkTraces := traces.filter isBenchmarkTrace
    if (benchmarkTraces.length : ℤ) ≤ warmupIterations then traces
    else
      let warmupTraceIds := warmupIdsOf warmupIterations traces
      traces.filter (fun t => !(!t.isEmpty && warmupTraceIds.contains (firstTraceId t)))

/-! ## Recursive hierarchical critical-path aggregation
(`_calculate_final_critical_io_recursive`, `_aggregate_span_recursive`,
`_check_concurrency`, `_get_critical_io_by_pattern`) -/

/-- Python dict assignment `d[k] = v` on an insertion-ordered association list. -/
def dictInsert (d : List (String × Span)) (k : String) (v : Span) : List (String × Span) :=
  if d.any (fun kv => kv.1 == k) then d.map (fun kv => if kv.1 == k then (k, v) else kv)
  else d ++ [(k, v)]

/-- The dict comprehension `{span['id']: span for span in trace}`, raising at
the first span with no `id`. -/
def buildLookupGo : List (String × Span) → List Span → Except String (List (String × Span))
  | acc, [] => .ok acc
  | acc, s :: rest =>
    match s.id with
    | none => .error "KeyError: id"
    | some sid => buildLookupGo (dictInsert acc sid s) rest

/-- `span_lookup = {span['id']: span for span in trace}`. -/
def spanLookupOf (trace : Trace) : Except String (List (String × Span)) :=
  buildLookupGo [] trace

/-- `span_lookup.values()` in insertion order. -/
def lookupValues (lookup : List (String × Span)) : List Span := lookup.map Prod.snd

/-- `[s for s in span_lookup.values() if s.get('parentId') == span_id]`. -/
def childrenOf (lookup : List (String × Span)) (spanId : String) : List Span :=
  (lookupValues lookup).filter (fun s => s.parentId == some spanId)

/-- The adjacent-pair scan of `_check_concurrency` over `(timestamp, duration_ms)`
pairs: true when some next start is strictly before the previous end. -/
def anyAdjacentOverlap : List (ℚ × ℚ) → Bool
  | a :: b :: rest => decide (b.1 < a.1 + a.2) || anyAdjacentOverlap (b :: rest)
  | _ => false

/-- `_check_concurrency` on a list of `(timestamp, duration_ms)` pairs
(`sorted(spans, key=lambda x: x['timestamp'])` is the stable sort by start). -/
def checkConcurrency (spans : List (ℚ × ℚ)) : Bool :=
  if spans.length ≤ 1 then false
  else anyAdjacentOverlap (spans.insertionSort (fun a b => a.1 ≤ b.1))

/-- The `{'timestamp': ts/1000, 'duration_ms': dur/1000}` dictionary built for
concurrency checks. -/
def timedPair (s : Span) : ℚ × ℚ := (startMs s, durMs s)

/-- The span's own contribution: its duration in ms when its name matches a
pattern, otherwise 0. -/
def ownContribution (patterns : List String) (s : Span) : ℚ :=
  if matchesAny patterns s then durMs s else 0

/-- `max(values)` on a non-empty Python list (0 on `[]`, never reached by the
guarded call sites). -/
def pyMax : List ℚ → ℚ
  | [] => 0
  | x :: xs => xs.foldl max x

/-- `min(values)` on a non-empty Python list (0 on `[]`, never reached by the
guarded call sites). -/
def pyMin : List ℚ → ℚ
  | [] => 0
  | x :: xs => xs.foldl min x

/-- `_aggregate_span_recursive`, with explicit fuel standing for Python's
call stack (the source recursion is not structurally terminating; any fuel
larger than the tree height computes the same value, see the C8 theorem). -/
def aggregateSpanRecursive (patterns : List String) :
    ℕ → Span → List (String × Span) → ℚ
  | 0, _, _ => 0
  | fuel + 1, span, lookup =>
    let children := childrenOf lookup (span.id.getD "")
    let childValues := children.map (fun c => aggregateSpanRecursive patterns fuel c lookup)
    let spanValue := ownContribution patterns span
    if children = [] then spanValue
    else
      let criticalPairs := (children.zip childValues).filter (fun cv => decide (0 < cv.2))
      if criticalPairs.length ≤ 1 then spanValue + childValues.sum
      else if checkConcurrency (criticalPairs.map (fun cv => timedPair cv.1)) then
        spanValue + pyMax (criticalPairs.map Prod.snd)
      else spanValue + (criticalPairs.map Prod.snd).sum

/-- `_calculate_final_critical_io_recursive`. -/
def calculateFinalCriticalIoRecursive (patterns : List String) (fuel : ℕ)
    (trace : Trace) : Except String ℚ :=
  (spanLookupOf trace).map (fun lookup =>
    let rootSpans := trace.filter (fun s => s.parentId.isNone)
    if rootSpans = [] then 0
    else
      let rootValues := rootSpans.map (fun r => aggregateSpanRecursive patterns fuel r lookup)
      if rootValues.length = 1 then rootValues.headD 0
      else if checkConcurrency (rootSpans.map timedPair) then pyMax rootValues
      else rootValues.sum)

/-- The `patterns` argument of `_get_critical_io_by_pattern`: a single string
or a list of strings. -/
inductive PatternsArg
  | single (p : String)
  | multiple (ps : List String)
deriving DecidableEq, Repr

/-- The `isinstance(patterns, str)` normalisation. -/
def normalizePatterns : PatternsArg → List String
  | .single p => [p]
  | .multiple ps => ps

/-- The `pattern_name` chosen alongside the normalisation. -/
def patternNameOf : PatternsArg → String
  | .single p => p
  | .multiple _ => "total"

/-- The per-trace body of `_get_critical_io_by_pattern`. -/
def traceCriticalIoRecursive (patterns : List String) (patternName : String)
    (fuel : ℕ) (trace : Trace) : Except String CritRecord :=
  if trace = [] then
    .ok { traceId := "", criticalIoMs := 0, spansCount := 0, executionPattern := "no_trace" }
  else
    let criticalSpans := ioSpansOf patterns trace
    if criticalSpans = [] then
      .ok { traceId := firstTraceId trace, criticalIoMs := 0, spansCount := 0
            executionPattern :=
              if patterns.length = 1 then "no_" ++ patternName ++ "_spans"
              else "no_critical_spans" }
    else
      (calculateFinalCriticalIoRecursive patterns fuel trace).map (fun criticalIo =>
        { traceId := firstTraceId trace
          criticalIoMs := criticalIo
          spansCount := criticalSpans.length
          executionPattern := "recursive_hierarchical" })

/-- The trace loop of `_get_critical_io_by_pattern`. -/
def criticalIoByPatternLoop (patterns : List String) (patternName : String)
    (fuel : ℕ) : List Trace → Except String (List CritRecord)
  | [] => .ok []
  | t :: rest =>
    (traceCriticalIoRecursive patterns patternName fuel t).bind (fun r =>
      (criticalIoByPatternLoop patterns patternName fuel rest).map (fun rs => r :: rs))

/-- The mutable state of a `TraceParser` object. -/
structure ParserState where
  traceFilePath : String
  warmupIterations : ℤ
  traces : List Trace
deriving DecidableEq, Repr

/-- `_get_critical_io_by_pattern` as a state-passing function: the method
reads `self.traces` and builds only fresh local lists, so the object state it
returns is the one it received. -/
def getCriticalIoByPattern (fuel : ℕ) (st : ParserState) (patternsArg : PatternsArg) :
    Except String (List CritRecord) × ParserState :=
  let patterns := normalizePatterns patternsArg
  let patternName := patternNameOf patternsArg
  (criticalIoByPatternLoop patterns patternName fuel st.traces, st)

/-! ## Post-order visit instrumentation for the recursive aggregator

`postorderVisit` records, with the exact recursion structure of
`_aggregate_span_recursive` (children first, in `span_lookup.values()` order,
then the span itself), the id of every span the recursion visits. -/

/-- Post-order list of visited span ids, mirroring `aggregateSpanRecursive`. -/
def postorderVisit : ℕ → Span → List (String × Span) → List String
  | 0, _, _ => []
  | fuel + 1, span, lookup =>
    ((childrenOf lookup (span.id.getD "")).map
        (fun c => postorderVisit fuel c lookup)).flatten ++ [span.id.getD ""]

/-- All ids visited by `_calculate_final_critical_io_recursive`: one traversal
from each root span. -/
def postorderForest (fuel : ℕ) (trace : Trace) (lookup : List (String × Span)) : List String :=
  ((trace.filter (fun s => s.parentId.isNone)).map
      (fun r => postorderVisit fuel r lookup)).flatten

/-- `span['id']` read of a span known to carry an id. -/
def idOf (s : Span) : String := s.id.getD ""

/-- `k`-fold parent step: `chainUp trace k s` follows `parentId` upward `k`
times through the trace (`none` when a link is absent or dangling). -/
def findParent (trace : Trace) (s : Span) : Option Span :=
  s.parentId.bind (fun pid => trace.find? (fun t => t.id == some pid))

def chainUp (trace : Trace) : ℕ → Span → Option Span
  | 0, s => some s
  | k + 1, s => (findParent trace s).bind (chainUp trace k)

/-! ## Trace loading (`_load_traces_direct`)

The file read and the two `json` stdlib calls are modelled by their outcome;
the embedded logic is the `wrapper_data.get('rawData', '[]')` default and the
`except ... raise ValueError` policy of the source. -/

/-- Outcome of `json.loads` on the string stored under `rawData`:
`malformed` means the string is not valid JSON (or not a string at all), so
`json.loads` raises; `traces ts` means it parses to the trace array. -/
inductive RawPayload
  | malformed
  | traces (ts : List Trace)
deriving Repr

/-- Outcome of opening and JSON-parsing the wrapper file. -/
inductive LoadInput
  /-- `open` raises `FileNotFoundError`. -/
  | missingFile
  /-- `json.load(f)` raises `JSONDecodeError`. -/
  | invalidJson
  /-- the wrapper JSON is not an object, so `.get` raises `AttributeError`. -/
  | notAnObject
  /-- a JSON object; `rawData` is absent (`none`) or holds a serialized payload. -/
  | wrapper (rawData : Option RawPayload)
deriving Repr

/-- `_load_traces_direct`: every exception is re-raised as `ValueError`; an
absent `rawData` key falls back to parsing the string `'[]'`. -/
def loadTracesDirect (input : LoadInput) : Except String (List Trace) :=
  match input with
  | .missingFile => .error "ValueError: Failed to load traces"
  | .invalidJson => .error "ValueError: Failed to load traces"
  | .notAnObject => .error "ValueError: Failed to load traces"
  | .wrapper none => .ok []
  | .wrapper (some .malformed) => .error "ValueError: Failed to load traces"
  | .wrapper (some (.traces ts)) => .ok ts

/-! ## Statistics (`trace_statistics.py`) -/

/-- `sorted(values)` on numbers (stable sort; on a linear order any sort
agrees with it). -/
def pySortAsc (l : List ℚ) : List ℚ := l.insertionSort (fun a b => a ≤ b)

/-- Python `int(x)` truncation toward zero. -/
def pyTrunc (q : ℚ) : ℤ := if q < 0 then -⌊-q⌋ else ⌊q⌋

/-- The per-percentile computation of `calculate_percentiles` over the sorted
value list. -/
def percentileOf (sortedValues : List ℚ) (p : ℚ) : ℚ :=
  let index : ℚ := (p / 100) * ((sortedValues.length : ℚ) - 1)
  if index.den = 1 then sortedValues.getD (pyTrunc index).toNat 0
  else
    let lower := sortedValues.getD (pyTrunc index).toNat 0
    let upper := sortedValues.getD ((pyTrunc index).toNat + 1) 0
    lower + (upper - lower) * (index - ((pyTrunc index : ℤ) : ℚ))

/-- `calculate_percentiles` (the default percentile list is `[50, 90, 95, 99]`),
returned as an association list `p ↦ value` (the source keys by `f'p{p}'`). -/
def calculatePercentiles (values : List ℚ) (ps : List ℚ) : List (ℚ × ℚ) :=
  if values = [] then ps.map (fun p => (p, 0))
  else
    let sortedValues := pySortAsc values
    ps.map (fun p => (p, percentileOf sortedValues p))

/-- `statistics.quantiles(data, n=n, method='exclusive')[i-1]` for `1 ≤ i < n`
(the CPython formula: `m = len+1`, `j = clamp(i*m//n, 1, len-1)`,
`delta = i*m - j*n`, interpolate between `data[j-1]` and `data[j]`). -/
def statQuantile (data : List ℚ) (n : ℕ) (i : ℕ) : ℚ :=
  let d := pySortAsc data
  let ld := d.length
  let m := ld + 1
  let j0 := i * m / n
  let j := if j0 < 1 then 1 else if ld - 1 < j0 then ld - 1 else j0
  let delta : ℤ := (i * m : ℤ) - (j : ℤ) * (n : ℤ)
  (d.getD (j - 1) 0 * ((n : ℚ) - (delta : ℚ)) + d.getD j 0 * (delta : ℚ)) / (n : ℚ)

/-- `statistics.quantiles(data, n=n)` as a list of the `n-1` cut points. -/
def statQuantiles (data : List ℚ) (n : ℕ) : List ℚ :=
  (List.range (n - 1)).map (fun k => statQuantile data n (k + 1))

/-- `q1` of `analyze_performance_stability`:
`statistics.quantiles(durations, n=4)[0] if len(durations) >= 4 else min(durations)`. -/
def stabilityQ1 (durations : List ℚ) : ℚ :=
  if 4 ≤ durations.length then (statQuantiles durations 4).getD 0 0 else pyMin durations

/-- `q3` of `analyze_performance_stability`:
`statistics.quantiles(durations, n=4)[2] if len(durations) >= 4 else max(durations)`. -/
def stabilityQ3 (durations : List ℚ) : ℚ :=
  if 4 ≤ durations.length then (statQuantiles durations 4).getD 2 0 else pyMax durations

/-- The outlier selection of `analyze_performance_stability`: samples outside
the `1.5 × IQR` fence. -/
def stabilityOutliers (durations : List ℚ) : List ℚ :=
  let q1 := stabilityQ1 durations
  let q3 := stabilityQ3 durations
  let iqr := q3 - q1
  let lowerBound := q1 - 3/2 * iqr
  let upperBound := q3 + 3/2 * iqr
  durations.filter (fun d => decide (d < lowerBound) || decide (upperBound < d))

/-- The `outliers` record of `analyze_performance_stability`.  -/
structure OutlierReport where
  count : ℕ
  values : List ℚ
  percentage : ℚ
deriving DecidableEq, Repr

/-- The outlier part of `analyze_performance_stability`; `none` models the
early `{'stability': 'unknown', 'reason': 'no data'}` return for an empty
input, which carries no `outliers` key. -/
def analyzeStabilityOutliers (durations : List ℚ) : Option OutlierReport :=
  if durations = [] then none
  else
    some { count := (stabilityOutliers durations).length
           values := stabilityOutliers durations
           percentage := ((stabilityOutliers durations).length : ℚ) / (durations.length : ℚ) * 100 }

/-! ## Concrete sample inputs used by counterexamples and witnesses -/

/-- A fully-populated span record. -/
def sampleSpan (i : String) (pid : Option String) (nm : String) (ts du : ℚ) : Span :=
  { id := some i, parentId := pid, name := some nm, timestamp := some ts
    duration := some du, traceId := some "t1" }

/-- Root plus two overlapping `gmail` children of 100 ms and 150 ms. -/
def concurrentChildrenTrace : Trace :=
  [sampleSpan "r" none "http post /benchmark/analyze" 0 300000,
   sampleSpan "a" (some "r") "gmail.one" 0 100000,
   sampleSpan "b" (some "r") "gmail.two" 50000 150000]

/-- Root plus two non-overlapping `gmail` children of 100 ms and 150 ms. -/
def sequentialChildrenTrace : Trace :=
  [sampleSpan "r" none "http post /benchmark/analyze" 0 500000,
   sampleSpan "a" (some "r") "gmail.one" 0 100000,
   sampleSpan "b" (some "r") "gmail.two" 200000 150000]

/-- A single category span whose `parentId` references no span in the trace. -/
def danglingParentTrace : Trace :=
  [sampleSpan "a" (some "missing") "gmail.one" 0 100000]

/-- A `gmail` span carrying a duration but no `id` key. -/
def missingIdSpan : Span :=
  { id := none, parentId := none, name := some "gmail.one", timestamp := some 0
    duration := some 5000, traceId := some "t1" }

/-- A one-span benchmark trace for a given trace id and start timestamp. -/
def benchSpan (tid : String) (ts : ℚ) : Span :=
  { id := some "s", parentId := none, name := some "HTTP POST /benchmark/analyze"
    timestamp := some ts, duration := some 1000, traceId := some tid }

/-- Three qualifying one-span traces starting at 100, 50 and 200. -/
def warmupDemoTraces : List Trace :=
  [[benchSpan "t1" 100], [benchSpan "t2" 50], [benchSpan "t3" 200]]

/-- The union of the half-open intervals `[p.1, p.2)` of a list, as a set of
rationals (used to state what "total length of the union" means). -/
def icoUnion : List (ℚ × ℚ) → Set ℚ
  | [] => ∅
  | p :: t => Set.Ico p.1 p.2 ∪ icoUnion t

/-- The interval endpoints of a span: `[start, start + duration)` in ms. -/
def spanIco (s : Span) : ℚ × ℚ := (startMs s, startMs s + durMs s)

/-! # Theorems -/

/-! ## Shared helper lemmas -/

@[simp] theorem isOk_ok {α : Type} (a : α) : (Except.ok a : Except String α).isOk = true := rfl

@[simp] theorem isOk_error {α : Type} (e : String) :
    (Except.error e : Except String α).isOk = false := rfl

theorem isOk_map {α β : Type} (f : α → β) (e : Except String α) :
    (e.map f).isOk = e.isOk := by
  cases e <;> rfl

theorem foldl_min_le_init (l : List ℚ) (a : ℚ) : l.foldl min a ≤ a := by
  induction l generalizing a with
  | nil => exact le_refl a
  | cons y ys ih => exact le_trans (ih (min a y)) (min_le_left a y)

theorem foldl_min_le_mem {l : List ℚ} {x : ℚ} (a : ℚ) (hx : x ∈ l) :
    l.foldl min a ≤ x := by
  induction l generalizing a with
  | nil => cases hx
  | cons y ys ih =>
    rcases List.mem_cons.mp hx with h | h
    · subst h
      exact le_trans (foldl_min_le_init ys (min a x)) (min_le_right a x)
    · exact ih (min a y) h

theorem init_le_foldl_max (l : List ℚ) (a : ℚ) : a ≤ l.foldl max a := by
  induction l generalizing a with
  | nil => exact le_refl a
  | cons y ys ih => exact le_trans (le_max_left a y) (ih (max a y))

theorem mem_le_foldl_max {l : List ℚ} {x : ℚ} (a : ℚ) (hx : x ∈ l) :
    x ≤ l.foldl max a := by
  induction l generalizing a with
  | nil => cases hx
  | cons y ys ih =>
    rcases List.mem_cons.mp hx with h | h
    · subst h
      exact le_trans (le_max_right a x) (init_le_foldl_max ys (max a x))
    · exact ih (max a y) h

theorem pyMin_le_mem {l : List ℚ} {x : ℚ} (hx : x ∈ l) : pyMin l ≤ x := by
  match l with
  | [] => cases hx
  | y :: ys =>
    rcases List.mem_cons.mp hx with h | h
    · subst h; exact foldl_min_le_init ys x
    · exact foldl_min_le_mem y h

theorem mem_le_pyMax {l : List ℚ} {x : ℚ} (hx : x ∈ l) : x ≤ pyMax l := by
  match l with
  | [] => cases hx
  | y :: ys =>
    rcases List.mem_cons.mp hx with h | h
    · subst h; exact init_le_foldl_max ys x
    · exact mem_le_foldl_max y h

theorem pyMin_le_pyMax {l : List ℚ} (h : l ≠ []) : pyMin l ≤ pyMax l := by
  match l with
  | [] => exact absurd rfl h
  | y :: ys => exact le_trans (pyMin_le_mem (List.mem_cons_self y ys)) (mem_le_pyMax (List.mem_cons_self y ys))

theorem buildLookupGo_ok (l : List Span) :
    ∀ acc, (∀ s ∈ l, s.id.isSome = true) → ∃ L, buildLookupGo acc l = .ok L := by
  induction l with
  | nil => intro acc _; exact ⟨acc, rfl⟩
  | cons s rest ih =>
    intro acc h
    obtain ⟨sid, hsid⟩ := Option.isSome_iff_exists.mp (h s (List.mem_cons_self s rest))
    obtain ⟨L, hL⟩ := ih (dictInsert acc sid s) (fun t ht => h t (List.mem_cons_of_mem s ht))
    refine ⟨L, ?_⟩
    simp only [buildLookupGo, hsid]
    exact hL

theorem spanLookupOf_ok (trace : Trace) (h : ∀ s ∈ trace, s.id.isSome = true) :
    ∃ L, spanLookupOf trace = .ok L :=
  buildLookupGo_ok trace [] h

/-! ## C6 — trace loading -/

/-- C6 counterexample: a well-formed JSON wrapper object with no `rawData`
payload field loads successfully as the empty trace list; the claimed
data-format error is not raised. -/
theorem load_missing_payload_counterexample :
    loadTracesDirect (LoadInput.wrapper none) = Except.ok [] ∧
      (loadTracesDirect (LoadInput.wrapper none)).isOk = true :=
  ⟨rfl, rfl⟩

/-- C6 (amended): loading fails exactly when the file is missing, the file is
not valid JSON, the wrapper is not a JSON object, or the payload field is
present but malformed; a wrapper object lacking the payload field yields the
empty trace list instead of an error. -/
theorem load_error_characterization :
    ∀ input : LoadInput,
      (loadTracesDirect input).isOk = false ↔
        (input = .missingFile ∨ input = .invalidJson ∨ input = .notAnObject ∨
          input = .wrapper (some .malformed)) := by
  intro input
  cases input with
  | wrapper rd =>
    cases rd with
    | none => simp [loadTracesDirect, Except.isOk]
    | some p => cases p <;> simp [loadTracesDirect, Except.isOk]
  | missingFile => simp [loadTracesDirect, Except.isOk]
  | invalidJson => simp [loadTracesDirect, Except.isOk]
  | notAnObject => simp [loadTracesDirect, Except.isOk]

/-! ## C9 — purity of the critical-path aggregator -/

/-- C9: the critical-path aggregator is deterministic and side-effect free:
it returns the parser state unchanged, and re-running it on that state
returns the identical result list. -/
theorem critical_io_by_pattern_pure :
    ∀ (fuel : ℕ) (st : ParserState) (pats : PatternsArg),
      (getCriticalIoByPattern fuel st pats).2 = st ∧
        (getCriticalIoByPattern fuel (getCriticalIoByPattern fuel st pats).2 pats).1 =
          (getCriticalIoByPattern fuel st pats).1 := by
  intro fuel st pats
  exact ⟨rfl, rfl⟩

/-! ## C10 — outlier detection on fewer than 4 samples -/

/-- C10: for a non-empty duration list with fewer than 4 samples the quartile
bounds degrade to `q1 = min` and `q3 = max`, so the `1.5 × IQR` fence contains
every sample and the reported outlier list is empty with count 0. -/
theorem small_sample_no_outliers (durations : List ℚ) (h1 : durations ≠ [])
    (h2 : durations.length < 4) :
    stabilityQ1 durations = pyMin durations ∧
      stabilityQ3 durations = pyMax durations ∧
      stabilityOutliers durations = [] ∧
      analyzeStabilityOutliers durations =
        some { count := 0, values := [], percentage := 0 } := by
  have hq1 : stabilityQ1 durations = pyMin durations := by
    unfold stabilityQ1
    rw [if_neg (by omega)]
  have hq3 : stabilityQ3 durations = pyMax durations := by
    unfold stabilityQ3
    rw [if_neg (by omega)]
  have hout : stabilityOutliers durations = [] := by
    unfold stabilityOutliers
    rw [hq1, hq3]
    rw [List.filter_eq_nil_iff]
    intro d hd
    have hmin : pyMin durations ≤ d := pyMin_le_mem hd
    have hmax : d ≤ pyMax durations := mem_le_pyMax hd
    have hmm : pyMin durations ≤ pyMax durations := pyMin_le_pyMax h1
    simp only [Bool.or_eq_true, decide_eq_true_eq, not_or]
    constructor <;> [skip; skip] <;> [intro hlt; intro hlt] <;> linarith
  refine ⟨hq1, hq3, hout, ?_⟩
  unfold analyzeStabilityOutliers
  rw [if_neg h1, hout]
  simp

/-- C10 witness at the concrete sample `[3, 1, 2]`. -/
theorem small_sample_no_outliers_witness :
    (([3, 1, 2] : List ℚ) ≠ [] ∧ ([3, 1, 2] : List ℚ).length < 4) ∧
      stabilityOutliers [3, 1, 2] = [] ∧
      analyzeStabilityOutliers [3, 1, 2] =
        some { count := 0, values := [], percentage := 0 } := by
  have h := small_sample_no_outliers [3, 1, 2] (by simp) (by simp)
  exact ⟨⟨by simp, by simp⟩, h.2.2.1, h.2.2.2⟩

/-! ## C4 — spans with a dangling `parentId` -/

/-- C4 counterexample: a trace consisting of a single `gmail` span of 100 ms
whose `parentId` references no span in the trace.  The recursive critical-path
computation returns 0 — the span is not treated as root-equivalent and its
duration is not counted (the claim would require 100). -/
theorem dangling_parent_counterexample :
    calculateFinalCriticalIoRecursive ["gmail"] 5 danglingParentTrace = .ok 0 ∧
      matchesAny ["gmail"] (sampleSpan "a" (some "missing") "gmail.one" 0 100000) = true ∧
      durMs (sampleSpan "a" (some "missing") "gmail.one" 0 100000) = 100 ∧
      (100 : ℚ) ≠ 0 := by
  refine ⟨?_, by decide, ?_, by norm_num⟩
  · simp [calculateFinalCriticalIoRecursive, spanLookupOf, buildLookupGo, dictInsert,
      danglingParentTrace, sampleSpan, Except.map]
  · norm_num [durMs, sampleSpan]

/-- C4 (amended): a span whose `parentId` is present but dangling is not
root-equivalent — root-level aggregation uses exactly the spans with an absent
`parentId`, so a trace in which every span carries a `parentId` yields 0
regardless of its category spans. -/
theorem dangling_parent_excluded (patterns : List String) (fuel : ℕ) (trace : Trace)
    (hid : ∀ s ∈ trace, s.id.isSome = true)
    (hp : ∀ s ∈ trace, s.parentId.isSome = true) :
    calculateFinalCriticalIoRecursive patterns fuel trace = .ok 0 := by
  obtain ⟨L, hL⟩ := spanLookupOf_ok trace hid
  have hroots : trace.filter (fun s => s.parentId.isNone) = [] := by
    rw [List.filter_eq_nil_iff]
    intro s hs
    have := hp s hs
    simp [Option.isNone]
    cases h : s.parentId with
    | none => rw [h] at this; simp at this
    | some _ => simp
  unfold calculateFinalCriticalIoRecursive
  rw [hL]
  simp only [Except.map, hroots, if_pos]

/-- C4 witness for the amended statement, at the dangling one-span trace. -/
theorem dangling_parent_excluded_witness :
    ((∀ s ∈ danglingParentTrace, s.id.isSome = true) ∧
      (∀ s ∈ danglingParentTrace, s.parentId.isSome = true)) ∧
      calculateFinalCriticalIoRecursive ["gmail"] 7 danglingParentTrace = .ok 0 := by
  refine ⟨⟨?_, ?_⟩, ?_⟩
  · intro s hs
    simp only [danglingParentTrace, sampleSpan, List.mem_singleton] at hs
    subst hs; rfl
  · intro s hs
    simp only [danglingParentTrace, sampleSpan, List.mem_singleton] at hs
    subst hs; rfl
  · exact dangling_parent_excluded ["gmail"] 7 danglingParentTrace
      (by intro s hs; simp only [danglingParentTrace, sampleSpan, List.mem_singleton] at hs; subst hs; rfl)
      (by intro s hs; simp only [danglingParentTrace, sampleSpan, List.mem_singleton] at hs; subst hs; rfl)

/-! ## C5 — per-trace failures in the interval-union computation -/

theorem buildIntervals_isOk_iff (l : List Span) :
    (buildIntervals l).isOk = false ↔ ∃ s ∈ l, s.id = none := by
  induction l with
  | nil => simp [buildIntervals, Except.isOk]
  | cons s rest ih =>
    cases hs : s.id with
    | none =>
      simp only [buildIntervals, hs]
      simp
      exact Or.inl hs
    | some sid =>
      simp only [buildIntervals, hs, isOk_map]
      rw [ih]
      constructor
      · rintro ⟨t, ht, hid⟩
        exact ⟨t, List.mem_cons_of_mem s ht, hid⟩
      · rintro ⟨t, ht, hid⟩
        rcases List.mem_cons.mp ht with h | h
        · subst h; rw [hs] at hid; cases hid
        · exact ⟨t, h, hid⟩

theorem traceCriticalIoUnion_isOk_iff (patterns : List String) (t : Trace) :
    (traceCriticalIoUnion patterns t).isOk = false ↔
      ∃ s ∈ ioSpansOf patterns t, s.id = none := by
  unfold traceCriticalIoUnion
  by_cases ht : t = []
  · subst ht
    simp [ioSpansOf]
  · rw [if_neg ht]
    by_cases hio : ioSpansOf patterns t = []
    · simp [hio]
    · rw [if_neg hio, isOk_map]
      exact buildIntervals_isOk_iff _

/-- C5 counterexample: one trace whose single span matches the pattern and has
a duration but no `id`.  The interval-union critical I/O computation raises
(`KeyError`) instead of skipping the trace and returning results for the rest. -/
theorem missing_id_error_counterexample :
    (getCriticalIoUnionIntervals ["gmail"] [[missingIdSpan]]).isOk = false ∧
      matchesAny ["gmail"] missingIdSpan = true ∧
      missingIdSpan.duration.isSome = true ∧
      missingIdSpan.id = none := by
  refine ⟨?_, by decide, rfl, rfl⟩
  simp [getCriticalIoUnionIntervals, traceCriticalIoUnion, ioSpansOf, missingIdSpan,
    buildIntervals, matchesAny, nameLower, isPrefixChars, Except.map, Except.bind]

/-- C5 (amended): a pattern-matching span that is missing its `id` field is
not skipped per-trace — it makes the whole interval-union critical I/O
computation fail, losing the results of every trace; and this is the only
failure mode. -/
theorem missing_id_aborts_iff :
    ∀ (patterns : List String) (traces : List Trace),
      (getCriticalIoUnionIntervals patterns traces).isOk = false ↔
        ∃ t ∈ traces, ∃ s ∈ ioSpansOf patterns t, s.id = none := by
  intro patterns traces
  induction traces with
  | nil => simp [getCriticalIoUnionIntervals, Except.isOk]
  | cons t rest ih =>
    cases hres : traceCriticalIoUnion patterns t with
    | error e =>
      have hbad : ∃ s ∈ ioSpansOf patterns t, s.id = none := by
        rw [← traceCriticalIoUnion_isOk_iff, hres]
        rfl
      simp only [getCriticalIoUnionIntervals, hres, Except.bind]
      constructor
      · intro _
        exact ⟨t, List.mem_cons_self t rest, hbad⟩
      · intro _
        rfl
    | ok r =>
      have hgood : ¬ ∃ s ∈ ioSpansOf patterns t, s.id = none := by
        rw [← traceCriticalIoUnion_isOk_iff, hres]
        simp [Except.isOk]
      simp only [getCriticalIoUnionIntervals, hres, Except.bind, isOk_map]
      rw [ih]
      constructor
      · rintro ⟨u, hu, hbad⟩
        exact ⟨u, List.mem_cons_of_mem t hu, hbad⟩
      · rintro ⟨u, hu, hbad⟩
        rcases List.mem_cons.mp hu with h | h
        · subst h; exact absurd hbad hgood
        · exact ⟨u, h, hbad⟩

/-! ## C3 — warm-up exclusion -/

theorem isBenchmarkTrace_ne_nil {t : Trace} (h : isBenchmarkTrace t = true) : t ≠ [] := by
  intro hnil
  subst hnil
  simp [isBenchmarkTrace] at h

/-- C3 counterexample: with exactly one qualifying trace and `warmupCount = 1`
(`warmupCount` equal to the number of qualifying traces, hence within the
claimed `0 < warmupCount ≤ qualifying` range) the code skips exclusion and
removes nothing, while the claim requires the qualifying trace to be removed. -/
theorem warmup_exclusion_equal_count_counterexample :
    excludeWarmupIterations 1 [[benchSpan "t1" 100]] = [[benchSpan "t1" 100]] ∧
      isBenchmarkTrace [benchSpan "t1" 100] = true ∧
      (([[benchSpan "t1" 100]] : List Trace).filter isBenchmarkTrace).length = 1 := by
  have hb : isBenchmarkTrace [benchSpan "t1" 100] = true := by decide
  refine ⟨?_, hb, by decide⟩
  unfold excludeWarmupIterations
  rw [if_neg (by norm_num)]
  have hfil : (([[benchSpan "t1" 100]] : List Trace).filter isBenchmarkTrace).length = 1 := by
    decide
  rw [if_pos (by rw [hfil]; norm_num)]

/-- C3 (amended): with `warmupCount = 0` nothing is removed; with
`0 < warmupCount` and at most `warmupCount` qualifying traces the exclusion is
skipped entirely (this includes the boundary `warmupCount =` number of
qualifying traces, where the claim wrongly demanded removal); with
`0 < warmupCount <` number of qualifying traces, the working set keeps exactly
the traces that are empty or whose first-span trace id is not among the ids of
the `warmupCount` earliest-starting qualifying traces (stably sorted by
minimum span timestamp), and in particular each of those earliest qualifying
traces is removed. -/
theorem warmup_exclusion_behavior :
    (∀ traces : List Trace, excludeWarmupIterations 0 traces = traces) ∧
    (∀ (w : ℤ) (traces : List Trace), 0 < w →
      ((traces.filter isBenchmarkTrace).length : ℤ) ≤ w →
      excludeWarmupIterations w traces = traces) ∧
    (∀ (w : ℤ) (traces : List Trace), 0 < w →
      w < ((traces.filter isBenchmarkTrace).length : ℤ) →
      excludeWarmupIterations w traces =
        traces.filter
          (fun t => !(!t.isEmpty && (warmupIdsOf w traces).contains (firstTraceId t)))) ∧
    (∀ (w : ℤ) (traces : List Trace), 0 < w →
      w < ((traces.filter isBenchmarkTrace).length : ℤ) →
      ∀ t ∈ (sortedBenchmarkTraces traces).take w.toNat,
        t ∉ excludeWarmupIterations w traces) := by
  have h3 : ∀ (w : ℤ) (traces : List Trace), 0 < w →
      w < ((traces.filter isBenchmarkTrace).length : ℤ) →
      excludeWarmupIterations w traces =
        traces.filter
          (fun t => !(!t.isEmpty && (warmupIdsOf w traces).contains (firstTraceId t))) := by
    intro w traces hw hlt
    unfold excludeWarmupIterations
    rw [if_neg (by omega), if_neg (by omega)]
  refine ⟨?_, ?_, h3, ?_⟩
  · intro traces
    unfold excludeWarmupIterations
    rw [if_pos (le_refl 0)]
  · intro w traces hw hle
    unfold excludeWarmupIterations
    rw [if_neg (by omega), if_pos hle]
  · intro w traces hw hlt t ht hmem
    rw [h3 w traces hw hlt] at hmem
    have hcond := (List.mem_filter.mp hmem).2
    have htr : t ∈ sortedBenchmarkTraces traces := List.mem_of_mem_take ht
    have hbt : isBenchmarkTrace t = true := by
      have : t ∈ traces.filter isBenchmarkTrace := by
        have hperm := List.perm_insertionSort
          (fun a b => traceMinTs a ≤ traceMinTs b) (traces.filter isBenchmarkTrace)
        exact hperm.mem_iff.mp htr
      exact (List.mem_filter.mp this).2
    have hne : t ≠ [] := isBenchmarkTrace_ne_nil hbt
    have hid : (warmupIdsOf w traces).contains (firstTraceId t) = true := by
      apply List.contains_iff_exists_mem_beq.mpr
      refine ⟨firstTraceId t, ?_, by simp⟩
      exact List.mem_map_of_mem firstTraceId ht
    rw [hid] at hcond
    simp at hcond
    exact hne hcond

/-- C3 witness for the amended statement: three qualifying traces and
`warmupCount = 1`. -/
theorem warmup_exclusion_behavior_witness :
    ((0 : ℤ) < 1 ∧ (1 : ℤ) < ((warmupDemoTraces.filter isBenchmarkTrace).length : ℤ)) ∧
      excludeWarmupIterations 1 warmupDemoTraces =
        warmupDemoTraces.filter
          (fun t => !(!t.isEmpty && (warmupIdsOf 1 warmupDemoTraces).contains (firstTraceId t))) := by
  have hlen : (warmupDemoTraces.filter isBenchmarkTrace).length = 3 := by decide
  refine ⟨⟨by norm_num, by rw [hlen]; norm_num⟩, ?_⟩
  exact warmup_exclusion_behavior.2.2.1 1 warmupDemoTraces (by norm_num)
    (by rw [hlen]; norm_num)

/-! ## C7 — percentiles -/

theorem percentileOf_spec (values : List ℚ) (p : ℚ) (hne : values ≠ [])
    (h0 : 0 ≤ p) (_h100 : p ≤ 100) :
    ((∃ k : ℤ, (p / 100) * ((values.length : ℚ) - 1) = (k : ℚ)) →
      percentileOf (pySortAsc values) p =
        (pySortAsc values).getD (⌊(p / 100) * ((values.length : ℚ) - 1)⌋).toNat 0) ∧
    (¬ (∃ k : ℤ, (p / 100) * ((values.length : ℚ) - 1) = (k : ℚ)) →
      percentileOf (pySortAsc values) p =
        (pySortAsc values).getD (⌊(p / 100) * ((values.length : ℚ) - 1)⌋).toNat 0 +
          ((pySortAsc values).getD (⌈(p / 100) * ((values.length : ℚ) - 1)⌉).toNat 0 -
            (pySortAsc values).getD (⌊(p / 100) * ((values.length : ℚ) - 1)⌋).toNat 0) *
            ((p / 100) * ((values.length : ℚ) - 1) -
              (⌊(p / 100) * ((values.length : ℚ) - 1)⌋ : ℚ))) := by
  have hlen : (pySortAsc values).length = values.length :=
    (List.perm_insertionSort (fun a b : ℚ => a ≤ b) values).length_eq
  have hn1 : 1 ≤ values.length := by
    cases values with
    | nil => exact absurd rfl hne
    | cons x xs => simp
  set idx : ℚ := (p / 100) * ((values.length : ℚ) - 1) with hidxdef
  have hidx0 : 0 ≤ idx := by
    apply mul_nonneg (div_nonneg h0 (by norm_num))
    have : (1 : ℚ) ≤ (values.length : ℚ) := by exact_mod_cast hn1
    linarith
  have htr : pyTrunc idx = ⌊idx⌋ := by
    unfold pyTrunc
    rw [if_neg (not_lt.mpr hidx0)]
  have hfl0 : 0 ≤ ⌊idx⌋ := Int.floor_nonneg.mpr hidx0
  have hunfold : percentileOf (pySortAsc values) p =
      if idx.den = 1 then (pySortAsc values).getD (pyTrunc idx).toNat 0
      else
        (pySortAsc values).getD (pyTrunc idx).toNat 0 +
          ((pySortAsc values).getD ((pyTrunc idx).toNat + 1) 0 -
            (pySortAsc values).getD (pyTrunc idx).toNat 0) *
            (idx - ((pyTrunc idx : ℤ) : ℚ)) := by
    unfold percentileOf
    rw [hlen]
  constructor
  · rintro ⟨k, hk⟩
    have hden : idx.den = 1 := by
      rw [hk]
      exact Rat.den_intCast k
    rw [hunfold, if_pos hden, htr]
  · intro hnint
    have hden : ¬ idx.den = 1 := by
      intro h
      exact hnint ⟨idx.num, ((Rat.den_eq_one_iff idx).mp h).symm⟩
    have hflt : (⌊idx⌋ : ℚ) < idx := by
      rcases lt_or_eq_of_le (Int.floor_le idx) with h | h
      · exact h
      · exact absurd ⟨⌊idx⌋, h.symm⟩ hnint
    have hceil : ⌈idx⌉ = ⌊idx⌋ + 1 := by
      rw [Int.ceil_eq_iff]
      constructor
      · push_cast
        linarith
      · push_cast
        linarith [Int.lt_floor_add_one idx]
    have htn : (⌈idx⌉).toNat = ⌊idx⌋.toNat + 1 := by
      rw [hceil]
      omega
    rw [hunfold, if_neg hden, htr, htn]

/-- C7: for a non-empty value list and `0 ≤ p ≤ 100`, `calculate_percentiles`
returns the order statistic at the fractional rank `idx = (p/100)·(n-1)` of the
ascending sort when `idx` is an integer, and otherwise the linear interpolation
`lower + (upper - lower)·(idx - ⌊idx⌋)` between the floor and ceiling order
statistics; `percentiles([10,20,30,40],[50]) = 25`, and the empty list yields
0 for every requested percentile. -/
theorem calculate_percentiles_correct :
    (∀ (values : List ℚ) (p : ℚ), values ≠ [] → 0 ≤ p → p ≤ 100 →
      ((∃ k : ℤ, (p / 100) * ((values.length : ℚ) - 1) = (k : ℚ)) →
        calculatePercentiles values [p] =
          [(p, (pySortAsc values).getD (⌊(p / 100) * ((values.length : ℚ) - 1)⌋).toNat 0)]) ∧
      (¬ (∃ k : ℤ, (p / 100) * ((values.length : ℚ) - 1) = (k : ℚ)) →
        calculatePercentiles values [p] =
          [(p, (pySortAsc values).getD (⌊(p / 100) * ((values.length : ℚ) - 1)⌋).toNat 0 +
            ((pySortAsc values).getD (⌈(p / 100) * ((values.length : ℚ) - 1)⌉).toNat 0 -
              (pySortAsc values).getD (⌊(p / 100) * ((values.length : ℚ) - 1)⌋).toNat 0) *
              ((p / 100) * ((values.length : ℚ) - 1) -
                (⌊(p / 100) * ((values.length : ℚ) - 1)⌋ : ℚ)))])) ∧
    calculatePercentiles [10, 20, 30, 40] [50] = [(50, 25)] ∧
    (∀ ps : List ℚ, calculatePercentiles [] ps = ps.map (fun p => (p, 0))) := by
  have hmap : ∀ (values : List ℚ) (p : ℚ), values ≠ [] →
      calculatePercentiles values [p] = [(p, percentileOf (pySortAsc values) p)] := by
    intro values p hne
    unfold calculatePercentiles
    rw [if_neg hne]
    rfl
  refine ⟨?_, ?_, ?_⟩
  · intro values p hne h0 h100
    have hspec := percentileOf_spec values p hne h0 h100
    constructor
    · intro h
      rw [hmap values p hne, (hspec.1 h)]
    · intro h
      rw [hmap values p hne, (hspec.2 h)]
  · have hnint : ¬ (∃ k : ℤ, ((50 : ℚ) / 100) * ((([10, 20, 30, 40] : List ℚ).length : ℚ) - 1) = (k : ℚ)) := by
      rintro ⟨k, hk⟩
      have hv : ((50 : ℚ) / 100) * ((([10, 20, 30, 40] : List ℚ).length : ℚ) - 1) = 3 / 2 := by
        norm_num
      rw [hv] at hk
      have h1 : (1 : ℚ) < (k : ℚ) := by rw [← hk]; norm_num
      have h2 : (k : ℚ) < 2 := by rw [← hk]; norm_num
      have h1' : (1 : ℤ) < k := by exact_mod_cast h1
      have h2' : k < 2 := by exact_mod_cast h2
      omega
    have h := (percentileOf_spec [10, 20, 30, 40] 50 (by simp) (by norm_num) (by norm_num)).2 hnint
    rw [hmap [10, 20, 30, 40] 50 (by simp), h]
    have hsort : pySortAsc [10, 20, 30, 40] = [10, 20, 30, 40] := by
      norm_num [pySortAsc, List.insertionSort, List.orderedInsert]
    rw [hsort]
    have hidx : ((50 : ℚ) / 100) * ((([10, 20, 30, 40] : List ℚ).length : ℚ) - 1) = 3 / 2 := by
      norm_num
    rw [hidx]
    have hfl : ⌊(3 / 2 : ℚ)⌋ = 1 := by norm_num
    have hcl : ⌈(3 / 2 : ℚ)⌉ = 2 := by
      apply Int.ceil_eq_iff.mpr
      constructor <;> norm_num
    rw [hfl, hcl, show (1 : ℤ).toNat = 1 from rfl, show (2 : ℤ).toNat = 2 from rfl]
    norm_num [List.getD]
  · intro ps
    unfold calculatePercentiles
    rw [if_pos rfl]

/-- C7 witness at `values = [10,20,30,40]`, `p = 50`. -/
theorem calculate_percentiles_correct_witness :
    (([10, 20, 30, 40] : List ℚ) ≠ [] ∧ (0 : ℚ) ≤ 50 ∧ (50 : ℚ) ≤ 100) ∧
      calculatePercentiles [10, 20, 30, 40] [50] = [(50, 25)] :=
  ⟨⟨by simp, by norm_num, by norm_num⟩, calculate_percentiles_correct.2.1⟩

/-! ## C2 — concurrent-vs-sequential aggregation -/

theorem children_mem_values {lookup : List (String × Span)} {i : String} {c : Span}
    (h : c ∈ childrenOf lookup i) : c ∈ lookupValues lookup := (List.mem_filter.mp h).1

theorem ownContribution_nonneg {patterns : List String} {s : Span}
    (h : 0 ≤ s.duration.getD 0) : 0 ≤ ownContribution patterns s := by
  unfold ownContribution
  split
  · unfold durMs
    positivity
  · exact le_refl 0

theorem pyMax_nonneg {l : List ℚ} (h : ∀ x ∈ l, 0 ≤ x) : 0 ≤ pyMax l := by
  match l with
  | [] => exact le_refl 0
  | y :: ys => exact le_trans (h y (List.mem_cons_self y ys)) (init_le_foldl_max ys y)

theorem aggregate_nonneg (patterns : List String) :
    ∀ (fuel : ℕ) (span : Span) (lookup : List (String × Span)),
      0 ≤ span.duration.getD 0 →
      (∀ s ∈ lookupValues lookup, 0 ≤ s.duration.getD 0) →
      0 ≤ aggregateSpanRecursive patterns fuel span lookup := by
  intro fuel
  induction fuel with
  | zero =>
    intro span lookup _ _
    simp [aggregateSpanRecursive]
  | succ fuel ih =>
    intro span lookup hsp hlk
    have hown : 0 ≤ ownContribution patterns span := ownContribution_nonneg hsp
    have hcv : ∀ v ∈ (childrenOf lookup (span.id.getD "")).map
        (fun c => aggregateSpanRecursive patterns fuel c lookup), 0 ≤ v := by
      intro v hv
      obtain ⟨c, hc, rfl⟩ := List.mem_map.mp hv
      exact ih c lookup (hlk c (children_mem_values hc)) hlk
    have hcp : ∀ v ∈ (((childrenOf lookup (span.id.getD "")).zip
        ((childrenOf lookup (span.id.getD "")).map
          (fun c => aggregateSpanRecursive patterns fuel c lookup))).filter
            (fun cv => decide (0 < cv.2))).map Prod.snd, 0 ≤ v := by
      intro v hv
      obtain ⟨cv, hcv2, rfl⟩ := List.mem_map.mp hv
      have hz := (List.mem_filter.mp hcv2).1
      exact hcv cv.2 (List.of_mem_zip hz).2
    simp only [aggregateSpanRecursive]
    split
    · exact hown
    split
    · exact add_nonneg hown (List.sum_nonneg hcv)
    split
    · exact add_nonneg hown (pyMax_nonneg hcp)
    · exact add_nonneg hown (List.sum_nonneg hcp)

theorem anyAdjacentOverlap_eq_true_iff (l : List (ℚ × ℚ)) :
    anyAdjacentOverlap l = true ↔
      ¬ List.Chain' (fun a b : ℚ × ℚ => a.1 + a.2 ≤ b.1) l := by
  induction l with
  | nil => simp [anyAdjacentOverlap]
  | cons a t ih =>
    cases t with
    | nil => simp [anyAdjacentOverlap]
    | cons b r =>
      rw [List.chain'_cons]
      simp only [anyAdjacentOverlap, Bool.or_eq_true, decide_eq_true_eq]
      rw [ih]
      constructor
      · rintro (h | h) hc
        · exact absurd hc.1 (not_le.mpr h)
        · exact h hc.2
      · intro h
        by_cases hab : b.1 < a.1 + a.2
        · exact Or.inl hab
        · exact Or.inr (fun hcr => h ⟨not_lt.mp hab, hcr⟩)

theorem zip_map_filter (l : List Span) (f : Span → ℚ) (p : ℚ → Bool) :
    (l.zip (l.map f)).filter (fun cv => p cv.2) =
      (l.filter (fun c => p (f c))).map (fun c => (c, f c)) := by
  induction l with
  | nil => rfl
  | cons c cs ih =>
    simp only [List.map_cons, List.zip_cons_cons, List.filter_cons]
    cases hp : p (f c) <;> simp [hp, ih]

theorem map_filter_eq (l : List Span) (f : Span → ℚ) (p : ℚ → Bool) :
    (l.map f).filter p = (l.filter (fun c => p (f c))).map f := by
  induction l with
  | nil => rfl
  | cons c cs ih =>
    simp only [List.map_cons, List.filter_cons]
    cases hp : p (f c) <;> simp [hp, ih]

theorem aggregate_branch_eq (patterns : List String) (fuel : ℕ) (span : Span)
    (lookup : List (String × Span))
    (hlk : ∀ s ∈ lookupValues lookup, 0 ≤ s.duration.getD 0)
    (h2 : 2 ≤ (((childrenOf lookup (span.id.getD "")).map
        (fun c => aggregateSpanRecursive patterns fuel c lookup)).filter
          (fun v => v ≠ 0)).length) :
    (¬ List.Chain' (fun a b : ℚ × ℚ => a.1 + a.2 ≤ b.1)
        (((((childrenOf lookup (span.id.getD "")).zip
            ((childrenOf lookup (span.id.getD "")).map
              (fun c => aggregateSpanRecursive patterns fuel c lookup))).filter
                (fun cv => cv.2 ≠ 0)).map
          (fun cv => timedPair cv.1)).insertionSort (fun a b => a.1 ≤ b.1)) →
      aggregateSpanRecursive patterns (fuel + 1) span lookup =
        ownContribution patterns span +
          pyMax (((((childrenOf lookup (span.id.getD "")).zip
            ((childrenOf lookup (span.id.getD "")).map
              (fun c => aggregateSpanRecursive patterns fuel c lookup))).filter
                (fun cv => cv.2 ≠ 0)).map Prod.snd))) ∧
    (List.Chain' (fun a b : ℚ × ℚ => a.1 + a.2 ≤ b.1)
        (((((childrenOf lookup (span.id.getD "")).zip
            ((childrenOf lookup (span.id.getD "")).map
              (fun c => aggregateSpanRecursive patterns fuel c lookup))).filter
                (fun cv => cv.2 ≠ 0)).map
          (fun cv => timedPair cv.1)).insertionSort (fun a b => a.1 ≤ b.1)) →
      aggregateSpanRecursive patterns (fuel + 1) span lookup =
        ownContribution patterns span +
          (((((childrenOf lookup (span.id.getD "")).zip
            ((childrenOf lookup (span.id.getD "")).map
              (fun c => aggregateSpanRecursive patterns fuel c lookup))).filter
                (fun cv => cv.2 ≠ 0)).map Prod.snd)).sum) := by
  have hpos : ∀ c ∈ childrenOf lookup (span.id.getD ""),
      0 ≤ aggregateSpanRecursive patterns fuel c lookup := fun c hc =>
    aggregate_nonneg patterns fuel c lookup (hlk c (children_mem_values hc)) hlk
  have hdec : ∀ c ∈ childrenOf lookup (span.id.getD ""),
      (decide (0 < aggregateSpanRecursive patterns fuel c lookup)) =
        (decide (aggregateSpanRecursive patterns fuel c lookup ≠ 0)) := by
    intro c hc
    rcases lt_or_eq_of_le (hpos c hc) with h | h
    · simp [h, ne_of_gt h]
    · simp [← h]
  have hfeq : (childrenOf lookup (span.id.getD "")).filter
        (fun c => decide (0 < aggregateSpanRecursive patterns fuel c lookup)) =
      (childrenOf lookup (span.id.getD "")).filter
        (fun c => decide (aggregateSpanRecursive patterns fuel c lookup ≠ 0)) :=
    List.filter_congr hdec
  have hzipP := zip_map_filter (childrenOf lookup (span.id.getD ""))
    (fun c => aggregateSpanRecursive patterns fuel c lookup) (fun v => decide (0 < v))
  have hzipN := zip_map_filter (childrenOf lookup (span.id.getD ""))
    (fun c => aggregateSpanRecursive patterns fuel c lookup) (fun v => decide (v ≠ 0))
  have hpairs : ((childrenOf lookup (span.id.getD "")).zip
        ((childrenOf lookup (span.id.getD "")).map
          (fun c => aggregateSpanRecursive patterns fuel c lookup))).filter
            (fun cv => decide (0 < cv.2)) =
      ((childrenOf lookup (span.id.getD "")).zip
        ((childrenOf lookup (span.id.getD "")).map
          (fun c => aggregateSpanRecursive patterns fuel c lookup))).filter
            (fun cv => decide (cv.2 ≠ 0)) := by
    rw [hzipP, hzipN, hfeq]
  have hmapfil := map_filter_eq (childrenOf lookup (span.id.getD ""))
    (fun c => aggregateSpanRecursive patterns fuel c lookup) (fun v => decide (v ≠ 0))
  have hlenN : 2 ≤ (((childrenOf lookup (span.id.getD "")).zip
      ((childrenOf lookup (span.id.getD "")).map
        (fun c => aggregateSpanRecursive patterns fuel c lookup))).filter
          (fun cv => decide (cv.2 ≠ 0))).length := by
    rw [hzipN, List.length_map]
    rw [hmapfil, List.length_map] at h2
    exact h2
  have hlenP : 2 ≤ (((childrenOf lookup (span.id.getD "")).zip
      ((childrenOf lookup (span.id.getD "")).map
        (fun c => aggregateSpanRecursive patterns fuel c lookup))).filter
          (fun cv => decide (0 < cv.2))).length := by
    rw [hpairs]
    exact hlenN
  have hchne : ¬ (childrenOf lookup (span.id.getD "") = []) := by
    intro h
    rw [h] at hlenP
    simp at hlenP
  have hunf : aggregateSpanRecursive patterns (fuel + 1) span lookup =
      (if childrenOf lookup (span.id.getD "") = [] then ownContribution patterns span
       else
        if (((childrenOf lookup (span.id.getD "")).zip
            ((childrenOf lookup (span.id.getD "")).map
              (fun c => aggregateSpanRecursive patterns fuel c lookup))).filter
                (fun cv => decide (0 < cv.2))).length ≤ 1 then
          ownContribution patterns span +
            ((childrenOf lookup (span.id.getD "")).map
              (fun c => aggregateSpanRecursive patterns fuel c lookup)).sum
        else
          if checkConcurrency (((((childrenOf lookup (span.id.getD "")).zip
              ((childrenOf lookup (span.id.getD "")).map
                (fun c => aggregateSpanRecursive patterns fuel c lookup))).filter
                  (fun cv => decide (0 < cv.2)))).map (fun cv => timedPair cv.1)) then
            ownContribution patterns span +
              pyMax (((((childrenOf lookup (span.id.getD "")).zip
                ((childrenOf lookup (span.id.getD "")).map
                  (fun c => aggregateSpanRecursive patterns fuel c lookup))).filter
                    (fun cv => decide (0 < cv.2)))).map Prod.snd)
          else
            ownContribution patterns span +
              (((((childrenOf lookup (span.id.getD "")).zip
                ((childrenOf lookup (span.id.getD "")).map
                  (fun c => aggregateSpanRecursive patterns fuel c lookup))).filter
                    (fun cv => decide (0 < cv.2)))).map Prod.snd).sum) := rfl
  rw [hunf, if_neg hchne, if_neg (by omega), hpairs]
  have hcc : checkConcurrency (((((childrenOf lookup (span.id.getD "")).zip
      ((childrenOf lookup (span.id.getD "")).map
        (fun c => aggregateSpanRecursive patterns fuel c lookup))).filter
          (fun cv => decide (cv.2 ≠ 0)))).map (fun cv => timedPair cv.1)) =
      anyAdjacentOverlap ((((((childrenOf lookup (span.id.getD "")).zip
        ((childrenOf lookup (span.id.getD "")).map
          (fun c => aggregateSpanRecursive patterns fuel c lookup))).filter
            (fun cv => decide (cv.2 ≠ 0)))).map
        (fun cv => timedPair cv.1)).insertionSort (fun a b => a.1 ≤ b.1)) := by
    unfold checkConcurrency
    rw [if_neg (by rw [List.length_map]; omega)]
  rw [hcc]
  constructor
  · intro hnc
    rw [if_pos ((anyAdjacentOverlap_eq_true_iff _).mpr hnc)]
  · intro hc
    have : anyAdjacentOverlap ((((((childrenOf lookup (span.id.getD "")).zip
        ((childrenOf lookup (span.id.getD "")).map
          (fun c => aggregateSpanRecursive patterns fuel c lookup))).filter
            (fun cv => decide (cv.2 ≠ 0)))).map
        (fun cv => timedPair cv.1)).insertionSort (fun a b => a.1 ≤ b.1)) = false :=
      Bool.eq_false_iff.mpr (fun h => absurd hc ((anyAdjacentOverlap_eq_true_iff _).mp h))
    rw [if_neg (by rw [this]; exact Bool.false_ne_true)]


theorem aggregate_no_children (patterns : List String) (fuel : ℕ) (span : Span)
    (lookup : List (String × Span)) (h : childrenOf lookup (span.id.getD "") = []) :
    aggregateSpanRecursive patterns (fuel + 1) span lookup = ownContribution patterns span := by
  simp only [aggregateSpanRecursive, h]
  rw [if_pos trivial]

theorem calcFinal_single_root (patterns : List String) (fuel : ℕ) (trace : Trace)
    (L : List (String × Span)) (r : Span)
    (hlk : spanLookupOf trace = .ok L)
    (hroots : trace.filter (fun s => s.parentId.isNone) = [r]) :
    calculateFinalCriticalIoRecursive patterns fuel trace =
      .ok (aggregateSpanRecursive patterns fuel r L) := by
  unfold calculateFinalCriticalIoRecursive
  rw [hlk]
  simp [Except.map, hroots]

theorem calc_concurrent_example :
    calculateFinalCriticalIoRecursive ["gmail"] 5 concurrentChildrenTrace = .ok 150 := by
  have hlk : spanLookupOf concurrentChildrenTrace = .ok
      [("r", sampleSpan "r" none "http post /benchmark/analyze" 0 300000),
       ("a", sampleSpan "a" (some "r") "gmail.one" 0 100000),
       ("b", sampleSpan "b" (some "r") "gmail.two" 50000 150000)] := rfl
  have hroots : concurrentChildrenTrace.filter (fun s => s.parentId.isNone) =
      [sampleSpan "r" none "http post /benchmark/analyze" 0 300000] := rfl
  rw [calcFinal_single_root ["gmail"] 5 concurrentChildrenTrace _ _ hlk hroots]
  have hca : childrenOf
      [("r", sampleSpan "r" none "http post /benchmark/analyze" 0 300000),
       ("a", sampleSpan "a" (some "r") "gmail.one" 0 100000),
       ("b", sampleSpan "b" (some "r") "gmail.two" 50000 150000)]
      ((sampleSpan "a" (some "r") "gmail.one" 0 100000).id.getD "") = [] := rfl
  have hcb : childrenOf
      [("r", sampleSpan "r" none "http post /benchmark/analyze" 0 300000),
       ("a", sampleSpan "a" (some "r") "gmail.one" 0 100000),
       ("b", sampleSpan "b" (some "r") "gmail.two" 50000 150000)]
      ((sampleSpan "b" (some "r") "gmail.two" 50000 150000).id.getD "") = [] := rfl
  have hvalA : aggregateSpanRecursive ["gmail"] 4
      (sampleSpan "a" (some "r") "gmail.one" 0 100000)
      [("r", sampleSpan "r" none "http post /benchmark/analyze" 0 300000),
       ("a", sampleSpan "a" (some "r") "gmail.one" 0 100000),
       ("b", sampleSpan "b" (some "r") "gmail.two" 50000 150000)] = 100 := by
    rw [show (4 : ℕ) = 3 + 1 from rfl, aggregate_no_children _ _ _ _ hca]
    unfold ownContribution
    rw [if_pos (by decide)]
    norm_num [durMs, sampleSpan]
  have hvalB : aggregateSpanRecursive ["gmail"] 4
      (sampleSpan "b" (some "r") "gmail.two" 50000 150000)
      [("r", sampleSpan "r" none "http post /benchmark/analyze" 0 300000),
       ("a", sampleSpan "a" (some "r") "gmail.one" 0 100000),
       ("b", sampleSpan "b" (some "r") "gmail.two" 50000 150000)] = 150 := by
    rw [show (4 : ℕ) = 3 + 1 from rfl, aggregate_no_children _ _ _ _ hcb]
    unfold ownContribution
    rw [if_pos (by decide)]
    norm_num [durMs, sampleSpan]
  have hcr : childrenOf
      [("r", sampleSpan "r" none "http post /benchmark/analyze" 0 300000),
       ("a", sampleSpan "a" (some "r") "gmail.one" 0 100000),
       ("b", sampleSpan "b" (some "r") "gmail.two" 50000 150000)]
      ((sampleSpan "r" none "http post /benchmark/analyze" 0 300000).id.getD "") =
      [sampleSpan "a" (some "r") "gmail.one" 0 100000,
       sampleSpan "b" (some "r") "gmail.two" 50000 150000] := rfl
  have hmR : matchesAny ["gmail"] (sampleSpan "r" none "http post /benchmark/analyze" 0 300000) = false := by
    decide
  have hdur : ∀ s ∈ lookupValues
      [("r", sampleSpan "r" none "http post /benchmark/analyze" 0 300000),
       ("a", sampleSpan "a" (some "r") "gmail.one" 0 100000),
       ("b", sampleSpan "b" (some "r") "gmail.two" 50000 150000)], 0 ≤ s.duration.getD 0 := by
    decide
  have hmap : (childrenOf
      [("r", sampleSpan "r" none "http post /benchmark/analyze" 0 300000),
       ("a", sampleSpan "a" (some "r") "gmail.one" 0 100000),
       ("b", sampleSpan "b" (some "r") "gmail.two" 50000 150000)]
      ((sampleSpan "r" none "http post /benchmark/analyze" 0 300000).id.getD "")).map
        (fun c => aggregateSpanRecursive ["gmail"] 4 c
          [("r", sampleSpan "r" none "http post /benchmark/analyze" 0 300000),
           ("a", sampleSpan "a" (some "r") "gmail.one" 0 100000),
           ("b", sampleSpan "b" (some "r") "gmail.two" 50000 150000)]) = [100, 150] := by
    rw [hcr]
    simp only [List.map_cons, List.map_nil]
    rw [hvalA, hvalB]
  have h2 : 2 ≤ (((childrenOf
      [("r", sampleSpan "r" none "http post /benchmark/analyze" 0 300000),
       ("a", sampleSpan "a" (some "r") "gmail.one" 0 100000),
       ("b", sampleSpan "b" (some "r") "gmail.two" 50000 150000)]
      ((sampleSpan "r" none "http post /benchmark/analyze" 0 300000).id.getD "")).map
        (fun c => aggregateSpanRecursive ["gmail"] 4 c
          [("r", sampleSpan "r" none "http post /benchmark/analyze" 0 300000),
           ("a", sampleSpan "a" (some "r") "gmail.one" 0 100000),
           ("b", sampleSpan "b" (some "r") "gmail.two" 50000 150000)])).filter
            (fun v => v ≠ 0)).length := by
    rw [hmap]
    decide
  have hbranch := aggregate_branch_eq ["gmail"] 4
    (sampleSpan "r" none "http post /benchmark/analyze" 0 300000)
    [("r", sampleSpan "r" none "http post /benchmark/analyze" 0 300000),
     ("a", sampleSpan "a" (some "r") "gmail.one" 0 100000),
     ("b", sampleSpan "b" (some "r") "gmail.two" 50000 150000)]
    hdur h2
  rw [hcr] at hbranch
  simp only [List.map_cons, List.map_nil] at hbranch
  rw [hvalA, hvalB] at hbranch
  have hnz : (([sampleSpan "a" (some "r") "gmail.one" 0 100000,
      sampleSpan "b" (some "r") "gmail.two" 50000 150000].zip
        ([100, 150] : List ℚ)).filter (fun cv => cv.2 ≠ 0)) =
      [(sampleSpan "a" (some "r") "gmail.one" 0 100000, (100 : ℚ)),
       (sampleSpan "b" (some "r") "gmail.two" 50000 150000, (150 : ℚ))] := by decide
  rw [hnz] at hbranch
  have hpairs2 : ([(sampleSpan "a" (some "r") "gmail.one" 0 100000, (100 : ℚ)),
      (sampleSpan "b" (some "r") "gmail.two" 50000 150000, (150 : ℚ))].map
        (fun cv => timedPair cv.1)) = [((0 : ℚ), (100 : ℚ)), ((50 : ℚ), (150 : ℚ))] := by
    norm_num [timedPair, startMs, durMs, sampleSpan]
  rw [hpairs2] at hbranch
  have hsort : List.insertionSort (fun a b : ℚ × ℚ => a.1 ≤ b.1)
      [((0 : ℚ), (100 : ℚ)), ((50 : ℚ), (150 : ℚ))] =
      [((0 : ℚ), (100 : ℚ)), ((50 : ℚ), (150 : ℚ))] := by decide
  rw [hsort] at hbranch
  have hfinal := hbranch.1 (by
    simp only [List.chain'_cons, List.chain'_singleton, and_true]
    norm_num)
  rw [show (5 : ℕ) = 4 + 1 from rfl, hfinal]
  have hown : ownContribution ["gmail"] (sampleSpan "r" none "http post /benchmark/analyze" 0 300000) = 0 := by
    unfold ownContribution
    rw [if_neg (by rw [hmR]; exact Bool.false_ne_true)]
  rw [hown]
  norm_num [pyMax, List.foldl]


theorem calc_sequential_example :
    calculateFinalCriticalIoRecursive ["gmail"] 5 sequentialChildrenTrace = .ok 250 := by
  have hlk : spanLookupOf sequentialChildrenTrace = .ok
      [("r", sampleSpan "r" none "http post /benchmark/analyze" 0 500000),
       ("a", sampleSpan "a" (some "r") "gmail.one" 0 100000),
       ("b", sampleSpan "b" (some "r") "gmail.two" 200000 150000)] := rfl
  have hroots : sequentialChildrenTrace.filter (fun s => s.parentId.isNone) =
      [sampleSpan "r" none "http post /benchmark/analyze" 0 500000] := rfl
  rw [calcFinal_single_root ["gmail"] 5 sequentialChildrenTrace _ _ hlk hroots]
  have hca : childrenOf
      [("r", sampleSpan "r" none "http post /benchmark/analyze" 0 500000),
       ("a", sampleSpan "a" (some "r") "gmail.one" 0 100000),
       ("b", sampleSpan "b" (some "r") "gmail.two" 200000 150000)]
      ((sampleSpan "a" (some "r") "gmail.one" 0 100000).id.getD "") = [] := rfl
  have hcb : childrenOf
      [("r", sampleSpan "r" none "http post /benchmark/analyze" 0 500000),
       ("a", sampleSpan "a" (some "r") "gmail.one" 0 100000),
       ("b", sampleSpan "b" (some "r") "gmail.two" 200000 150000)]
      ((sampleSpan "b" (some "r") "gmail.two" 200000 150000).id.getD "") = [] := rfl
  have hvalA : aggregateSpanRecursive ["gmail"] 4
      (sampleSpan "a" (some "r") "gmail.one" 0 100000)
      [("r", sampleSpan "r" none "http post /benchmark/analyze" 0 500000),
       ("a", sampleSpan "a" (some "r") "gmail.one" 0 100000),
       ("b", sampleSpan "b" (some "r") "gmail.two" 200000 150000)] = 100 := by
    rw [show (4 : ℕ) = 3 + 1 from rfl, aggregate_no_children _ _ _ _ hca]
    unfold ownContribution
    rw [if_pos (by decide)]
    norm_num [durMs, sampleSpan]
  have hvalB : aggregateSpanRecursive ["gmail"] 4
      (sampleSpan "b" (some "r") "gmail.two" 200000 150000)
      [("r", sampleSpan "r" none "http post /benchmark/analyze" 0 500000),
       ("a", sampleSpan "a" (some "r") "gmail.one" 0 100000),
       ("b", sampleSpan "b" (some "r") "gmail.two" 200000 150000)] = 150 := by
    rw [show (4 : ℕ) = 3 + 1 from rfl, aggregate_no_children _ _ _ _ hcb]
    unfold ownContribution
    rw [if_pos (by decide)]
    norm_num [durMs, sampleSpan]
  have hcr : childrenOf
      [("r", sampleSpan "r" none "http post /benchmark/analyze" 0 500000),
       ("a", sampleSpan "a" (some "r") "gmail.one" 0 100000),
       ("b", sampleSpan "b" (some "r") "gmail.two" 200000 150000)]
      ((sampleSpan "r" none "http post /benchmark/analyze" 0 500000).id.getD "") =
      [sampleSpan "a" (some "r") "gmail.one" 0 100000,
       sampleSpan "b" (some "r") "gmail.two" 200000 150000] := rfl
  have hmR : matchesAny ["gmail"] (sampleSpan "r" none "http post /benchmark/analyze" 0 500000) = false := by
    decide
  have hdur : ∀ s ∈ lookupValues
      [("r", sampleSpan "r" none "http post /benchmark/analyze" 0 500000),
       ("a", sampleSpan "a" (some "r") "gmail.one" 0 100000),
       ("b", sampleSpan "b" (some "r") "gmail.two" 200000 150000)], 0 ≤ s.duration.getD 0 := by
    decide
  have h2 : 2 ≤ (((childrenOf
      [("r", sampleSpan "r" none "http post /benchmark/analyze" 0 500000),
       ("a", sampleSpan "a" (some "r") "gmail.one" 0 100000),
       ("b", sampleSpan "b" (some "r") "gmail.two" 200000 150000)]
      ((sampleSpan "r" none "http post /benchmark/analyze" 0 500000).id.getD "")).map
        (fun c => aggregateSpanRecursive ["gmail"] 4 c
          [("r", sampleSpan "r" none "http post /benchmark/analyze" 0 500000),
           ("a", sampleSpan "a" (some "r") "gmail.one" 0 100000),
           ("b", sampleSpan "b" (some "r") "gmail.two" 200000 150000)])).filter
            (fun v => v ≠ 0)).length := by
    rw [hcr]
    simp only [List.map_cons, List.map_nil]
    rw [hvalA, hvalB]
    decide
  have hbranch := aggregate_branch_eq ["gmail"] 4
    (sampleSpan "r" none "http post /benchmark/analyze" 0 500000)
    [("r", sampleSpan "r" none "http post /benchmark/analyze" 0 500000),
     ("a", sampleSpan "a" (some "r") "gmail.one" 0 100000),
     ("b", sampleSpan "b" (some "r") "gmail.two" 200000 150000)]
    hdur h2
  rw [hcr] at hbranch
  simp only [List.map_cons, List.map_nil] at hbranch
  rw [hvalA, hvalB] at hbranch
  have hnz : (([sampleSpan "a" (some "r") "gmail.one" 0 100000,
      sampleSpan "b" (some "r") "gmail.two" 200000 150000].zip
        ([100, 150] : List ℚ)).filter (fun cv => cv.2 ≠ 0)) =
      [(sampleSpan "a" (some "r") "gmail.one" 0 100000, (100 : ℚ)),
       (sampleSpan "b" (some "r") "gmail.two" 200000 150000, (150 : ℚ))] := by decide
  rw [hnz] at hbranch
  have hpairs2 : ([(sampleSpan "a" (some "r") "gmail.one" 0 100000, (100 : ℚ)),
      (sampleSpan "b" (some "r") "gmail.two" 200000 150000, (150 : ℚ))].map
        (fun cv => timedPair cv.1)) = [((0 : ℚ), (100 : ℚ)), ((200 : ℚ), (150 : ℚ))] := by
    norm_num [timedPair, startMs, durMs, sampleSpan]
  rw [hpairs2] at hbranch
  have hsort : List.insertionSort (fun a b : ℚ × ℚ => a.1 ≤ b.1)
      [((0 : ℚ), (100 : ℚ)), ((200 : ℚ), (150 : ℚ))] =
      [((0 : ℚ), (100 : ℚ)), ((200 : ℚ), (150 : ℚ))] := by decide
  rw [hsort] at hbranch
  have hfinal := hbranch.2 (by
    simp only [List.chain'_cons, List.chain'_singleton, and_true]
    norm_num)
  rw [show (5 : ℕ) = 4 + 1 from rfl, hfinal]
  have hown : ownContribution ["gmail"] (sampleSpan "r" none "http post /benchmark/analyze" 0 500000) = 0 := by
    unfold ownContribution
    rw [if_neg (by rw [hmR]; exact Bool.false_ne_true)]
  rw [hown]
  norm_num

/-- C2: for a span with at least two children of non-zero computed value, the
recursive aggregation adds the span's own contribution to the maximum of the
non-zero child values when, after stably sorting those children by start
timestamp, some child starts strictly before the previous child's
`start + duration` (no adjacent pair is separated), and to their sum when every
adjacent pair is separated; in particular a root with two overlapping `gmail`
children of 100 ms and 150 ms yields 150 ms and with two non-overlapping such
children yields 250 ms. -/
theorem aggregate_concurrent_max_sequential_sum :
    (∀ (patterns : List String) (fuel : ℕ) (span : Span) (lookup : List (String × Span)),
      (∀ s ∈ lookupValues lookup, 0 ≤ s.duration.getD 0) →
      2 ≤ (((childrenOf lookup (span.id.getD "")).map
          (fun c => aggregateSpanRecursive patterns fuel c lookup)).filter
            (fun v => v ≠ 0)).length →
      (¬ List.Chain' (fun a b : ℚ × ℚ => a.1 + a.2 ≤ b.1)
          (((((childrenOf lookup (span.id.getD "")).zip
              ((childrenOf lookup (span.id.getD "")).map
                (fun c => aggregateSpanRecursive patterns fuel c lookup))).filter
                  (fun cv => cv.2 ≠ 0)).map
            (fun cv => timedPair cv.1)).insertionSort (fun a b => a.1 ≤ b.1)) →
        aggregateSpanRecursive patterns (fuel + 1) span lookup =
          ownContribution patterns span +
            pyMax (((((childrenOf lookup (span.id.getD "")).zip
              ((childrenOf lookup (span.id.getD "")).map
                (fun c => aggregateSpanRecursive patterns fuel c lookup))).filter
                  (fun cv => cv.2 ≠ 0)).map Prod.snd))) ∧
      (List.Chain' (fun a b : ℚ × ℚ => a.1 + a.2 ≤ b.1)
          (((((childrenOf lookup (span.id.getD "")).zip
              ((childrenOf lookup (span.id.getD "")).map
                (fun c => aggregateSpanRecursive patterns fuel c lookup))).filter
                  (fun cv => cv.2 ≠ 0)).map
            (fun cv => timedPair cv.1)).insertionSort (fun a b => a.1 ≤ b.1)) →
        aggregateSpanRecursive patterns (fuel + 1) span lookup =
          ownContribution patterns span +
            (((((childrenOf lookup (span.id.getD "")).zip
              ((childrenOf lookup (span.id.getD "")).map
                (fun c => aggregateSpanRecursive patterns fuel c lookup))).filter
                  (fun cv => cv.2 ≠ 0)).map Prod.snd)).sum)) ∧
    calculateFinalCriticalIoRecursive ["gmail"] 5 concurrentChildrenTrace = .ok 150 ∧
    calculateFinalCriticalIoRecursive ["gmail"] 5 sequentialChildrenTrace = .ok 250 :=
  ⟨fun patterns fuel span lookup hlk h2 => aggregate_branch_eq patterns fuel span lookup hlk h2,
   calc_concurrent_example, calc_sequential_example⟩

/-- C2 witness: the general branch equation applied at the concrete concurrent
root, evaluating to 150 ms. -/
theorem aggregate_concurrent_max_sequential_sum_witness :
    ((∀ s ∈ lookupValues
        [("r", sampleSpan "r" none "http post /benchmark/analyze" 0 300000),
         ("a", sampleSpan "a" (some "r") "gmail.one" 0 100000),
         ("b", sampleSpan "b" (some "r") "gmail.two" 50000 150000)],
        0 ≤ s.duration.getD 0) ∧
      2 ≤ (((childrenOf
          [("r", sampleSpan "r" none "http post /benchmark/analyze" 0 300000),
           ("a", sampleSpan "a" (some "r") "gmail.one" 0 100000),
           ("b", sampleSpan "b" (some "r") "gmail.two" 50000 150000)]
          ((sampleSpan "r" none "http post /benchmark/analyze" 0 300000).id.getD "")).map
            (fun c => aggregateSpanRecursive ["gmail"] 4 c
              [("r", sampleSpan "r" none "http post /benchmark/analyze" 0 300000),
               ("a", sampleSpan "a" (some "r") "gmail.one" 0 100000),
               ("b", sampleSpan "b" (some "r") "gmail.two" 50000 150000)])).filter
              (fun v => v ≠ 0)).length) ∧
      aggregateSpanRecursive ["gmail"] (4 + 1)
        (sampleSpan "r" none "http post /benchmark/analyze" 0 300000)
        [("r", sampleSpan "r" none "http post /benchmark/analyze" 0 300000),
         ("a", sampleSpan "a" (some "r") "gmail.one" 0 100000),
         ("b", sampleSpan "b" (some "r") "gmail.two" 50000 150000)] = 150 := by
  have hca : childrenOf
      [("r", sampleSpan "r" none "http post /benchmark/analyze" 0 300000),
       ("a", sampleSpan "a" (some "r") "gmail.one" 0 100000),
       ("b", sampleSpan "b" (some "r") "gmail.two" 50000 150000)]
      ((sampleSpan "a" (some "r") "gmail.one" 0 100000).id.getD "") = [] := rfl
  have hcb : childrenOf
      [("r", sampleSpan "r" none "http post /benchmark/analyze" 0 300000),
       ("a", sampleSpan "a" (some "r") "gmail.one" 0 100000),
       ("b", sampleSpan "b" (some "r") "gmail.two" 50000 150000)]
      ((sampleSpan "b" (some "r") "gmail.two" 50000 150000).id.getD "") = [] := rfl
  have hvalA : aggregateSpanRecursive ["gmail"] 4
      (sampleSpan "a" (some "r") "gmail.one" 0 100000)
      [("r", sampleSpan "r" none "http post /benchmark/analyze" 0 300000),
       ("a", sampleSpan "a" (some "r") "gmail.one" 0 100000),
       ("b", sampleSpan "b" (some "r") "gmail.two" 50000 150000)] = 100 := by
    rw [show (4 : ℕ) = 3 + 1 from rfl, aggregate_no_children _ _ _ _ hca]
    unfold ownContribution
    rw [if_pos (by decide)]
    norm_num [durMs, sampleSpan]
  have hvalB : aggregateSpanRecursive ["gmail"] 4
      (sampleSpan "b" (some "r") "gmail.two" 50000 150000)
      [("r", sampleSpan "r" none "http post /benchmark/analyze" 0 300000),
       ("a", sampleSpan "a" (some "r") "gmail.one" 0 100000),
       ("b", sampleSpan "b" (some "r") "gmail.two" 50000 150000)] = 150 := by
    rw [show (4 : ℕ) = 3 + 1 from rfl, aggregate_no_children _ _ _ _ hcb]
    unfold ownContribution
    rw [if_pos (by decide)]
    norm_num [durMs, sampleSpan]
  have hcr : childrenOf
      [("r", sampleSpan "r" none "http post /benchmark/analyze" 0 300000),
       ("a", sampleSpan "a" (some "r") "gmail.one" 0 100000),
       ("b", sampleSpan "b" (some "r") "gmail.two" 50000 150000)]
      ((sampleSpan "r" none "http post /benchmark/analyze" 0 300000).id.getD "") =
      [sampleSpan "a" (some "r") "gmail.one" 0 100000,
       sampleSpan "b" (some "r") "gmail.two" 50000 150000] := rfl
  have h2 : 2 ≤ (((childrenOf
      [("r", sampleSpan "r" none "http post /benchmark/analyze" 0 300000),
       ("a", sampleSpan "a" (some "r") "gmail.one" 0 100000),
       ("b", sampleSpan "b" (some "r") "gmail.two" 50000 150000)]
      ((sampleSpan "r" none "http post /benchmark/analyze" 0 300000).id.getD "")).map
        (fun c => aggregateSpanRecursive ["gmail"] 4 c
          [("r", sampleSpan "r" none "http post /benchmark/analyze" 0 300000),
           ("a", sampleSpan "a" (some "r") "gmail.one" 0 100000),
           ("b", sampleSpan "b" (some "r") "gmail.two" 50000 150000)])).filter
            (fun v => v ≠ 0)).length := by
    rw [hcr]
    simp only [List.map_cons, List.map_nil]
    rw [hvalA, hvalB]
    decide
  refine ⟨⟨by decide, h2⟩, ?_⟩
  have hbranch := aggregate_concurrent_max_sequential_sum.1 ["gmail"] 4
    (sampleSpan "r" none "http post /benchmark/analyze" 0 300000)
    [("r", sampleSpan "r" none "http post /benchmark/analyze" 0 300000),
     ("a", sampleSpan "a" (some "r") "gmail.one" 0 100000),
     ("b", sampleSpan "b" (some "r") "gmail.two" 50000 150000)]
    (by decide) h2
  rw [hcr] at hbranch
  simp only [List.map_cons, List.map_nil] at hbranch
  rw [hvalA, hvalB] at hbranch
  have hnz : (([sampleSpan "a" (some "r") "gmail.one" 0 100000,
      sampleSpan "b" (some "r") "gmail.two" 50000 150000].zip
        ([100, 150] : List ℚ)).filter (fun cv => cv.2 ≠ 0)) =
      [(sampleSpan "a" (some "r") "gmail.one" 0 100000, (100 : ℚ)),
       (sampleSpan "b" (some "r") "gmail.two" 50000 150000, (150 : ℚ))] := by decide
  rw [hnz] at hbranch
  have hpairs2 : ([(sampleSpan "a" (some "r") "gmail.one" 0 100000, (100 : ℚ)),
      (sampleSpan "b" (some "r") "gmail.two" 50000 150000, (150 : ℚ))].map
        (fun cv => timedPair cv.1)) = [((0 : ℚ), (100 : ℚ)), ((50 : ℚ), (150 : ℚ))] := by
    norm_num [timedPair, startMs, durMs, sampleSpan]
  rw [hpairs2] at hbranch
  have hsort : List.insertionSort (fun a b : ℚ × ℚ => a.1 ≤ b.1)
      [((0 : ℚ), (100 : ℚ)), ((50 : ℚ), (150 : ℚ))] =
      [((0 : ℚ), (100 : ℚ)), ((50 : ℚ), (150 : ℚ))] := by decide
  rw [hsort] at hbranch
  have hfinal := hbranch.1 (by
    simp only [List.chain'_cons, List.chain'_singleton, and_true]
    norm_num)
  rw [hfinal]
  have hown : ownContribution ["gmail"]
      (sampleSpan "r" none "http post /benchmark/analyze" 0 300000) = 0 := by
    unfold ownContribution
    rw [if_neg (by decide)]
  rw [hown]
  norm_num [pyMax, List.foldl]

/-! ## C1 — interval-union critical I/O -/

instance : IsTotal Interval (fun a b => a.start ≤ b.start) :=
  ⟨fun a b => le_total a.start b.start⟩

instance : IsTrans Interval (fun a b => a.start ≤ b.start) :=
  ⟨fun _ _ _ h1 h2 => le_trans h1 h2⟩

theorem mem_icoUnion {x : ℚ} {l : List (ℚ × ℚ)} :
    x ∈ icoUnion l ↔ ∃ p ∈ l, x ∈ Set.Ico p.1 p.2 := by
  induction l with
  | nil => simp [icoUnion]
  | cons p t ih =>
    simp only [icoUnion, Set.mem_union, ih, List.mem_cons]
    constructor
    · rintro (h | ⟨q, hq, hx⟩)
      · exact ⟨p, Or.inl rfl, h⟩
      · exact ⟨q, Or.inr hq, hx⟩
    · rintro ⟨q, hq | hq, hx⟩
      · subst hq; exact Or.inl hx
      · exact Or.inr ⟨q, hq, hx⟩

theorem icoUnion_perm {l l' : List (ℚ × ℚ)} (h : l.Perm l') : icoUnion l = icoUnion l' := by
  ext x
  rw [mem_icoUnion, mem_icoUnion]
  constructor
  · rintro ⟨p, hp, hx⟩
    exact ⟨p, h.mem_iff.mp hp, hx⟩
  · rintro ⟨p, hp, hx⟩
    exact ⟨p, h.mem_iff.mpr hp, hx⟩

theorem Ico_union_eq {a b c d : ℚ} (hac : a ≤ c) (hcb : c ≤ b) :
    Set.Ico a b ∪ Set.Ico c d = Set.Ico a (max b d) := by
  ext x
  simp only [Set.mem_union, Set.mem_Ico, lt_max_iff]
  constructor
  · rintro (⟨h1, h2⟩ | ⟨h1, h2⟩)
    · exact ⟨h1, Or.inl h2⟩
    · exact ⟨le_trans hac h1, Or.inr h2⟩
  · rintro ⟨h1, h2 | h2⟩
    · exact Or.inl ⟨h1, h2⟩
    · by_cases hx : x < b
      · exact Or.inl ⟨h1, hx⟩
      · exact Or.inr ⟨le_trans hcb (not_lt.mp hx), h2⟩

/-- Invariants of the merge loop on a start-sorted, well-formed interval list:
well-formedness is preserved, the union of the output blocks equals the union
of the inputs, output blocks are pairwise separated (`stop < start`), and
every output block starts no earlier than the current interval. -/
theorem mergeIntervalsGo_spec :
    ∀ (rest : List Interval) (current : Interval),
      (∀ iv ∈ current :: rest, iv.duration = iv.stop - iv.start ∧ iv.start ≤ iv.stop) →
      List.Pairwise (fun a b : Interval => a.start ≤ b.start) (current :: rest) →
      (∀ b ∈ mergeIntervalsGo current rest,
          b.duration = b.stop - b.start ∧ b.start ≤ b.stop) ∧
        icoUnion ((mergeIntervalsGo current rest).map (fun b => (b.start, b.stop))) =
          icoUnion ((current :: rest).map (fun iv => (iv.start, iv.stop))) ∧
        List.Pairwise (fun b c : Interval => b.stop < c.start)
          (mergeIntervalsGo current rest) ∧
        (∀ b ∈ mergeIntervalsGo current rest, current.start ≤ b.start) := by
  intro rest
  induction rest with
  | nil =>
    intro current hwf _
    have hgo : mergeIntervalsGo current [] = [current] := rfl
    rw [hgo]
    refine ⟨?_, rfl, ?_, ?_⟩
    · intro b hb
      rw [List.mem_singleton] at hb
      subst hb
      exact hwf b (List.mem_cons_self b [])
    · exact List.pairwise_singleton _ _
    · intro b hb
      rw [List.mem_singleton] at hb
      subst hb
      exact le_refl b.start
  | cons next rest ih =>
    intro current hwf hsort
    have hwf_cur := hwf current (List.mem_cons_self _ _)
    have hwf_next := hwf next (List.mem_cons_of_mem _ (List.mem_cons_self _ _))
    have hcn : current.start ≤ next.start :=
      (List.pairwise_cons.mp hsort).1 next (List.mem_cons_self _ _)
    by_cases hover : next.start ≤ current.stop
    · -- merge branch
      have hgo : mergeIntervalsGo current (next :: rest) =
          mergeIntervalsGo (mergeStep current next) rest := by
        rw [show mergeIntervalsGo current (next :: rest) =
          if next.start ≤ current.stop then mergeIntervalsGo (mergeStep current next) rest
          else current :: mergeIntervalsGo next rest from rfl, if_pos hover]
      set cur' := mergeStep current next with hcur'
      have hcur'start : cur'.start = current.start := rfl
      have hcur'stop : cur'.stop = max current.stop next.stop := rfl
      have hcur'dur : cur'.duration = max current.stop next.stop - current.start := rfl
      have hwf' : ∀ iv ∈ cur' :: rest, iv.duration = iv.stop - iv.start ∧ iv.start ≤ iv.stop := by
        intro iv hi
        rcases List.mem_cons.mp hi with h | h
        · subst h
          refine ⟨hcur'dur, ?_⟩
          rw [hcur'start, hcur'stop]
          exact le_trans hwf_cur.2 (le_max_left _ _)
        · exact hwf iv (List.mem_cons_of_mem _ (List.mem_cons_of_mem _ h))
      have hsort' : List.Pairwise (fun a b : Interval => a.start ≤ b.start) (cur' :: rest) := by
        rw [List.pairwise_cons]
        constructor
        · intro b hb
          rw [hcur'start]
          exact le_trans hcn
            ((List.pairwise_cons.mp (List.pairwise_cons.mp hsort).2).1 b hb)
        · exact (List.pairwise_cons.mp (List.pairwise_cons.mp hsort).2).2
      obtain ⟨ihwf, ihun, ihpw, ihlb⟩ := ih cur' hwf' hsort'
      refine ⟨?_, ?_, ?_, ?_⟩
      · rw [hgo]; exact ihwf
      · rw [hgo, ihun]
        simp only [List.map_cons, icoUnion]
        rw [← Set.union_assoc]
        congr 1
        rw [hcur'start, hcur'stop]
        exact (Ico_union_eq hcn hover).symm
      · rw [hgo]; exact ihpw
      · rw [hgo]
        intro b hb
        rw [← hcur'start]
        exact ihlb b hb
    · -- separate branch
      have hgo : mergeIntervalsGo current (next :: rest) =
          current :: mergeIntervalsGo next rest := by
        rw [show mergeIntervalsGo current (next :: rest) =
          if next.start ≤ current.stop then mergeIntervalsGo (mergeStep current next) rest
          else current :: mergeIntervalsGo next rest from rfl, if_neg hover]
      have hwf' : ∀ iv ∈ next :: rest, iv.duration = iv.stop - iv.start ∧ iv.start ≤ iv.stop :=
        fun iv hi => hwf iv (List.mem_cons_of_mem _ hi)
      have hsort' : List.Pairwise (fun a b : Interval => a.start ≤ b.start) (next :: rest) :=
        (List.pairwise_cons.mp hsort).2
      obtain ⟨ihwf, ihun, ihpw, ihlb⟩ := ih next hwf' hsort'
      have hgap : current.stop < next.start := not_le.mp hover
      refine ⟨?_, ?_, ?_, ?_⟩
      · rw [hgo]
        intro b hb
        rcases List.mem_cons.mp hb with h | h
        · subst h; exact hwf_cur
        · exact ihwf b h
      · rw [hgo]
        simp only [List.map_cons, icoUnion]
        rw [ihun]
        simp only [List.map_cons, icoUnion]
      · rw [hgo, List.pairwise_cons]
        constructor
        · intro b hb
          exact lt_of_lt_of_le hgap (ihlb b hb)
        · exact ihpw
      · rw [hgo]
        intro b hb
        rcases List.mem_cons.mp hb with h | h
        · subst h; exact le_refl _
        · exact le_trans hcn (ihlb b h)


/-- On a start-sorted, well-formed, pairwise set-disjoint interval list the
merge loop preserves the total duration (adjacent or empty intervals are
absorbed without losing length). -/
theorem mergeIntervalsGo_sum_of_disjoint :
    ∀ (rest : List Interval) (current : Interval),
      (∀ iv ∈ current :: rest, iv.duration = iv.stop - iv.start ∧ iv.start ≤ iv.stop) →
      List.Pairwise (fun a b : Interval => a.start ≤ b.start) (current :: rest) →
      List.Pairwise (fun a b : Interval =>
        Disjoint (Set.Ico a.start a.stop) (Set.Ico b.start b.stop)) (current :: rest) →
      ((mergeIntervalsGo current rest).map Interval.duration).sum =
        ((current :: rest).map Interval.duration).sum := by
  intro rest
  induction rest with
  | nil =>
    intro current _ _ _
    rfl
  | cons next rest ih =>
    intro current hwf hsort hdisj
    have hwf_cur := hwf current (List.mem_cons_self _ _)
    have hwf_next := hwf next (List.mem_cons_of_mem _ (List.mem_cons_self _ _))
    have hcn : current.start ≤ next.start :=
      (List.pairwise_cons.mp hsort).1 next (List.mem_cons_self _ _)
    have hd_cn : Disjoint (Set.Ico current.start current.stop)
        (Set.Ico next.start next.stop) :=
      (List.pairwise_cons.mp hdisj).1 next (List.mem_cons_self _ _)
    by_cases hover : next.start ≤ current.stop
    · have hgo : mergeIntervalsGo current (next :: rest) =
          mergeIntervalsGo (mergeStep current next) rest := by
        rw [show mergeIntervalsGo current (next :: rest) =
          if next.start ≤ current.stop then mergeIntervalsGo (mergeStep current next) rest
          else current :: mergeIntervalsGo next rest from rfl, if_pos hover]
      set cur' := mergeStep current next with hcur'
      have hcur'start : cur'.start = current.start := rfl
      have hcur'stop : cur'.stop = max current.stop next.stop := rfl
      have hcur'dur : cur'.duration = max current.stop next.stop - current.start := rfl
      -- disjointness forces the overlap to be degenerate: empty next or adjacency
      have hcase : next.stop = next.start ∨ current.stop = next.start := by
        by_cases h1 : next.start < next.stop
        · right
          by_cases h2 : next.start < current.stop
          · exfalso
            have hmem1 : next.start ∈ Set.Ico current.start current.stop := ⟨hcn, h2⟩
            have hmem2 : next.start ∈ Set.Ico next.start next.stop := ⟨le_refl _, h1⟩
            exact Set.disjoint_left.mp hd_cn hmem1 hmem2
          · exact le_antisymm (not_lt.mp h2) hover
        · left
          exact le_antisymm (not_lt.mp h1) hwf_next.2
      have hdur' : cur'.duration = current.duration + next.duration := by
        rw [hcur'dur, hwf_cur.1, hwf_next.1]
        rcases hcase with h | h
        · rw [max_eq_left (le_trans (le_of_eq h) hover), h]
          ring
        · rw [max_eq_right (le_trans (le_of_eq h) hwf_next.2), ← h]
          ring
      have hseteq : Set.Ico cur'.start cur'.stop =
          Set.Ico current.start current.stop ∪ Set.Ico next.start next.stop := by
        rw [hcur'start, hcur'stop]
        exact (Ico_union_eq hcn hover).symm
      have hwf' : ∀ iv ∈ cur' :: rest, iv.duration = iv.stop - iv.start ∧ iv.start ≤ iv.stop := by
        intro iv hi
        rcases List.mem_cons.mp hi with h | h
        · subst h
          refine ⟨hcur'dur, ?_⟩
          rw [hcur'start, hcur'stop]
          exact le_trans hwf_cur.2 (le_max_left _ _)
        · exact hwf iv (List.mem_cons_of_mem _ (List.mem_cons_of_mem _ h))
      have hsort' : List.Pairwise (fun a b : Interval => a.start ≤ b.start) (cur' :: rest) := by
        rw [List.pairwise_cons]
        exact ⟨fun b hb => le_trans hcn
            ((List.pairwise_cons.mp (List.pairwise_cons.mp hsort).2).1 b hb),
          (List.pairwise_cons.mp (List.pairwise_cons.mp hsort).2).2⟩
      have hdisj' : List.Pairwise (fun a b : Interval =>
          Disjoint (Set.Ico a.start a.stop) (Set.Ico b.start b.stop)) (cur' :: rest) := by
        rw [List.pairwise_cons]
        constructor
        · intro b hb
          rw [hseteq]
          exact Disjoint.union_left
            ((List.pairwise_cons.mp hdisj).1 b (List.mem_cons_of_mem _ hb))
            ((List.pairwise_cons.mp (List.pairwise_cons.mp hdisj).2).1 b hb)
        · exact (List.pairwise_cons.mp (List.pairwise_cons.mp hdisj).2).2
      rw [hgo, ih cur' hwf' hsort' hdisj']
      simp only [List.map_cons, List.sum_cons]
      rw [hdur']
      ring
    · have hgo : mergeIntervalsGo current (next :: rest) =
          current :: mergeIntervalsGo next rest := by
        rw [show mergeIntervalsGo current (next :: rest) =
          if next.start ≤ current.stop then mergeIntervalsGo (mergeStep current next) rest
          else current :: mergeIntervalsGo next rest from rfl, if_neg hover]
      rw [hgo]
      simp only [List.map_cons, List.sum_cons]
      rw [ih next (fun iv hi => hwf iv (List.mem_cons_of_mem _ hi))
        (List.pairwise_cons.mp hsort).2 (List.pairwise_cons.mp hdisj).2]
      simp only [List.map_cons, List.sum_cons]


theorem buildIntervals_ok (l : List Span) (h : ∀ s ∈ l, s.id.isSome = true) :
    buildIntervals l = .ok (l.map (fun s => mkInterval s (s.id.getD ""))) := by
  induction l with
  | nil => rfl
  | cons s rest ih =>
    obtain ⟨sid, hsid⟩ := Option.isSome_iff_exists.mp (h s (List.mem_cons_self _ _))
    simp only [buildIntervals, hsid]
    rw [ih (fun t ht => h t (List.mem_cons_of_mem _ ht))]
    simp only [Except.map, List.map_cons, hsid, Option.getD_some]

theorem mkInterval_wf (s : Span) (sid : String) (hd : 0 ≤ s.duration.getD 0) :
    (mkInterval s sid).duration = (mkInterval s sid).stop - (mkInterval s sid).start ∧
      (mkInterval s sid).start ≤ (mkInterval s sid).stop := by
  constructor
  · show durMs s = (startMs s + durMs s) - startMs s
    ring
  · show startMs s ≤ startMs s + durMs s
    have hdm : 0 ≤ durMs s := by
      unfold durMs
      positivity
    linarith

/-- C1: the per-trace interval-union critical I/O result is the total length of
the union of the `[start, start+duration)` intervals of the pattern-matching
spans: the merged blocks are pairwise disjoint, cover exactly that union, and
their total length is the result; for pairwise non-overlapping spans the result
is the sum of their durations; for exactly two intervals `[a,b)`, `[c,d)` with
`a ≤ c ≤ b` it is `max(b,d) - min(a,c)`. -/
theorem critical_io_union_correct :
    ∀ (patterns : List String) (trace : Trace),
      (∀ s ∈ ioSpansOf patterns trace, s.id.isSome = true) →
      (∀ s ∈ ioSpansOf patterns trace, 0 ≤ s.duration.getD 0) →
      ioSpansOf patterns trace ≠ [] →
      ∃ r : CritRecord, traceCriticalIoUnion patterns trace = .ok r ∧
        (∃ blocks : List (ℚ × ℚ),
          r.criticalIoMs = (blocks.map (fun b => b.2 - b.1)).sum ∧
          List.Pairwise (fun b c : ℚ × ℚ =>
            Disjoint (Set.Ico b.1 b.2) (Set.Ico c.1 c.2)) blocks ∧
          icoUnion blocks = icoUnion ((ioSpansOf patterns trace).map spanIco)) ∧
        (List.Pairwise (fun s t : Span =>
            Disjoint (Set.Ico (spanIco s).1 (spanIco s).2)
              (Set.Ico (spanIco t).1 (spanIco t).2)) (ioSpansOf patterns trace) →
          r.criticalIoMs = ((ioSpansOf patterns trace).map durMs).sum) ∧
        (∀ s1 s2 : Span, ioSpansOf patterns trace = [s1, s2] →
          startMs s1 ≤ startMs s2 → startMs s2 ≤ startMs s1 + durMs s1 →
          r.criticalIoMs =
            max (startMs s1 + durMs s1) (startMs s2 + durMs s2) -
              min (startMs s1) (startMs s2)) := by
  intro patterns trace hid hdur hne
  have htr : trace ≠ [] := by
    intro h
    subst h
    exact hne rfl
  have hbi := buildIntervals_ok (ioSpansOf patterns trace) hid
  have hres : traceCriticalIoUnion patterns trace = .ok
      { traceId := firstTraceId trace
        criticalIoMs := ((mergeIntervals (sortIntervals
          ((ioSpansOf patterns trace).map (fun s => mkInterval s (s.id.getD ""))))).map
            Interval.duration).sum
        spansCount := (ioSpansOf patterns trace).length
        executionPattern := "union_intervals" } := by
    unfold traceCriticalIoUnion
    rw [if_neg htr, if_neg hne, hbi]
    rfl
  refine ⟨_, hres, ?_, ?_, ?_⟩
  · -- shared setup
    have hperm : (sortIntervals
        ((ioSpansOf patterns trace).map (fun s => mkInterval s (s.id.getD "")))).Perm
        ((ioSpansOf patterns trace).map (fun s => mkInterval s (s.id.getD ""))) :=
      List.perm_insertionSort _ _
    have hwf_ivs : ∀ iv ∈ (ioSpansOf patterns trace).map
        (fun s => mkInterval s (s.id.getD "")),
        iv.duration = iv.stop - iv.start ∧ iv.start ≤ iv.stop := by
      intro iv hiv
      obtain ⟨s, hs, rfl⟩ := List.mem_map.mp hiv
      exact mkInterval_wf s _ (hdur s hs)
    have hwf_sorted : ∀ iv ∈ sortIntervals
        ((ioSpansOf patterns trace).map (fun s => mkInterval s (s.id.getD ""))),
        iv.duration = iv.stop - iv.start ∧ iv.start ≤ iv.stop :=
      fun iv hiv => hwf_ivs iv (hperm.mem_iff.mp hiv)
    have hsorted : List.Pairwise (fun a b : Interval => a.start ≤ b.start)
        (sortIntervals ((ioSpansOf patterns trace).map (fun s => mkInterval s (s.id.getD "")))) :=
      List.sorted_insertionSort _ _
    have hne_sorted : sortIntervals
        ((ioSpansOf patterns trace).map (fun s => mkInterval s (s.id.getD ""))) ≠ [] := by
      intro h
      have := hperm.length_eq
      rw [h] at this
      have h2 := (List.length_eq_zero.mp this.symm)
      exact hne (List.map_eq_nil_iff.mp h2)
    obtain ⟨first, restS, hS⟩ := List.exists_cons_of_ne_nil hne_sorted
    have hwfS : ∀ iv ∈ first :: restS, iv.duration = iv.stop - iv.start ∧ iv.start ≤ iv.stop := by
      rw [← hS]; exact hwf_sorted
    have hsortS : List.Pairwise (fun a b : Interval => a.start ≤ b.start) (first :: restS) := by
      rw [← hS]; exact hsorted
    obtain ⟨mwf, mun, mpw, _⟩ := mergeIntervalsGo_spec restS first hwfS hsortS
    refine ⟨(mergeIntervalsGo first restS).map (fun b => (b.start, b.stop)), ?_, ?_, ?_⟩
    · show ((mergeIntervals (sortIntervals
        ((ioSpansOf patterns trace).map (fun s => mkInterval s (s.id.getD ""))))).map
          Interval.duration).sum = _
      rw [hS]
      show ((mergeIntervalsGo first restS).map Interval.duration).sum = _
      rw [List.map_map]
      apply congrArg
      apply List.map_congr_left
      intro b hb
      exact (mwf b hb).1
    · rw [List.pairwise_map]
      apply mpw.imp_of_mem
      intro b c hb hc hlt
      rw [Set.Ico_disjoint_Ico]
      exact le_trans (min_le_left _ _) (le_trans (le_of_lt hlt) (le_max_right _ _))
    · rw [mun]
      have hpermmap : ((first :: restS).map (fun iv => (iv.start, iv.stop))).Perm
          (((ioSpansOf patterns trace).map (fun s => mkInterval s (s.id.getD ""))).map
            (fun iv => (iv.start, iv.stop))) := by
        apply List.Perm.map
        rw [← hS]
        exact hperm
      rw [icoUnion_perm hpermmap, List.map_map]
      apply congrArg
      apply List.map_congr_left
      intro s _
      rfl
  · intro hdisj
    have hperm : (sortIntervals
        ((ioSpansOf patterns trace).map (fun s => mkInterval s (s.id.getD "")))).Perm
        ((ioSpansOf patterns trace).map (fun s => mkInterval s (s.id.getD ""))) :=
      List.perm_insertionSort _ _
    have hwf_ivs : ∀ iv ∈ (ioSpansOf patterns trace).map
        (fun s => mkInterval s (s.id.getD "")),
        iv.duration = iv.stop - iv.start ∧ iv.start ≤ iv.stop := by
      intro iv hiv
      obtain ⟨s, hs, rfl⟩ := List.mem_map.mp hiv
      exact mkInterval_wf s _ (hdur s hs)
    have hsorted : List.Pairwise (fun a b : Interval => a.start ≤ b.start)
        (sortIntervals ((ioSpansOf patterns trace).map (fun s => mkInterval s (s.id.getD "")))) :=
      List.sorted_insertionSort _ _
    have hne_sorted : sortIntervals
        ((ioSpansOf patterns trace).map (fun s => mkInterval s (s.id.getD ""))) ≠ [] := by
      intro h
      have := hperm.length_eq
      rw [h] at this
      exact hne (List.map_eq_nil_iff.mp (List.length_eq_zero.mp this.symm))
    obtain ⟨first, restS, hS⟩ := List.exists_cons_of_ne_nil hne_sorted
    have hwfS : ∀ iv ∈ first :: restS, iv.duration = iv.stop - iv.start ∧ iv.start ≤ iv.stop := by
      rw [← hS]
      intro iv hiv
      exact hwf_ivs iv (hperm.mem_iff.mp hiv)
    have hsortS : List.Pairwise (fun a b : Interval => a.start ≤ b.start) (first :: restS) := by
      rw [← hS]; exact hsorted
    have hdisj_ivs : List.Pairwise (fun a b : Interval =>
        Disjoint (Set.Ico a.start a.stop) (Set.Ico b.start b.stop))
        ((ioSpansOf patterns trace).map (fun s => mkInterval s (s.id.getD ""))) := by
      rw [List.pairwise_map]
      exact hdisj
    have hdisjS : List.Pairwise (fun a b : Interval =>
        Disjoint (Set.Ico a.start a.stop) (Set.Ico b.start b.stop)) (first :: restS) := by
      rw [← hS]
      exact hdisj_ivs.perm hperm.symm (fun h => h.symm)
    have hsum := mergeIntervalsGo_sum_of_disjoint restS first hwfS hsortS hdisjS
    show ((mergeIntervals (sortIntervals
      ((ioSpansOf patterns trace).map (fun s => mkInterval s (s.id.getD ""))))).map
        Interval.duration).sum = _
    rw [hS]
    show ((mergeIntervalsGo first restS).map Interval.duration).sum = _
    rw [hsum]
    have : ((first :: restS).map Interval.duration).Perm
        ((((ioSpansOf patterns trace).map (fun s => mkInterval s (s.id.getD ""))).map
          Interval.duration)) := by
      apply List.Perm.map
      rw [← hS]
      exact hperm
    rw [this.sum_eq, List.map_map]
    rfl
  · intro s1 s2 heq h12 hov
    show ((mergeIntervals (sortIntervals
      ((ioSpansOf patterns trace).map (fun s => mkInterval s (s.id.getD ""))))).map
        Interval.duration).sum = _
    rw [heq]
    have hsort2 : sortIntervals
        ([s1, s2].map (fun s => mkInterval s (s.id.getD ""))) =
        [mkInterval s1 (s1.id.getD ""), mkInterval s2 (s2.id.getD "")] := by
      show List.insertionSort _ [mkInterval s1 (s1.id.getD ""), mkInterval s2 (s2.id.getD "")] = _
      simp only [List.insertionSort, List.orderedInsert]
      rw [if_pos]
      exact h12
    rw [hsort2]
    show ((mergeIntervalsGo (mkInterval s1 (s1.id.getD ""))
      [mkInterval s2 (s2.id.getD "")]).map Interval.duration).sum = _
    rw [show mergeIntervalsGo (mkInterval s1 (s1.id.getD ""))
        [mkInterval s2 (s2.id.getD "")] =
      if (mkInterval s2 (s2.id.getD "")).start ≤ (mkInterval s1 (s1.id.getD "")).stop then
        mergeIntervalsGo (mergeStep (mkInterval s1 (s1.id.getD ""))
          (mkInterval s2 (s2.id.getD ""))) []
      else (mkInterval s1 (s1.id.getD "")) ::
        mergeIntervalsGo (mkInterval s2 (s2.id.getD "")) [] from rfl]
    rw [if_pos (show (mkInterval s2 (s2.id.getD "")).start ≤
      (mkInterval s1 (s1.id.getD "")).stop from hov)]
    show [(mergeStep (mkInterval s1 (s1.id.getD "")) (mkInterval s2 (s2.id.getD ""))).duration].sum = _
    show (max (startMs s1 + durMs s1) (startMs s2 + durMs s2) - startMs s1) + 0 = _
    rw [min_eq_left h12]
    ring


/-- C1 witness at the concrete trace with two overlapping `gmail` spans
(`[0,100)` and `[50,200)` ms). -/
theorem critical_io_union_correct_witness :
    ((∀ s ∈ ioSpansOf ["gmail"] concurrentChildrenTrace, s.id.isSome = true) ∧
      (∀ s ∈ ioSpansOf ["gmail"] concurrentChildrenTrace, 0 ≤ s.duration.getD 0) ∧
      ioSpansOf ["gmail"] concurrentChildrenTrace ≠ []) ∧
      (∃ r : CritRecord, traceCriticalIoUnion ["gmail"] concurrentChildrenTrace = .ok r ∧
        (∃ blocks : List (ℚ × ℚ),
          r.criticalIoMs = (blocks.map (fun b => b.2 - b.1)).sum ∧
          List.Pairwise (fun b c : ℚ × ℚ =>
            Disjoint (Set.Ico b.1 b.2) (Set.Ico c.1 c.2)) blocks ∧
          icoUnion blocks = icoUnion ((ioSpansOf ["gmail"] concurrentChildrenTrace).map spanIco)) ∧
        (List.Pairwise (fun s t : Span =>
            Disjoint (Set.Ico (spanIco s).1 (spanIco s).2)
              (Set.Ico (spanIco t).1 (spanIco t).2)) (ioSpansOf ["gmail"] concurrentChildrenTrace) →
          r.criticalIoMs = ((ioSpansOf ["gmail"] concurrentChildrenTrace).map durMs).sum) ∧
        (∀ s1 s2 : Span, ioSpansOf ["gmail"] concurrentChildrenTrace = [s1, s2] →
          startMs s1 ≤ startMs s2 → startMs s2 ≤ startMs s1 + durMs s1 →
          r.criticalIoMs =
            max (startMs s1 + durMs s1) (startMs s2 + durMs s2) -
              min (startMs s1) (startMs s2))) := by
  refine ⟨⟨by decide, by decide, by decide⟩, ?_⟩
  exact critical_io_union_correct ["gmail"] concurrentChildrenTrace
    (by decide) (by decide) (by decide)

/-! ## C8 — termination and single post-order traversal -/

theorem buildLookupGo_eq :
    ∀ (l : List Span) (acc : List (String × Span)),
      (∀ s ∈ l, s.id.isSome = true) →
      (l.map idOf).Nodup →
      (∀ s ∈ l, ∀ kv ∈ acc, kv.1 ≠ idOf s) →
      buildLookupGo acc l = .ok (acc ++ l.map (fun s => (idOf s, s))) := by
  intro l
  induction l with
  | nil =>
    intro acc _ _ _
    simp [buildLookupGo]
  | cons s rest ih =>
    intro acc hid hnd hacc
    obtain ⟨sid, hsid⟩ := Option.isSome_iff_exists.mp (hid s (List.mem_cons_self _ _))
    have hsid' : idOf s = sid := by
      unfold idOf
      rw [hsid]
      rfl
    have hins : dictInsert acc sid s = acc ++ [(sid, s)] := by
      unfold dictInsert
      rw [if_neg]
      intro hany
      obtain ⟨kv, hkv, hbeq⟩ := List.any_eq_true.mp hany
      exact hacc s (List.mem_cons_self _ _) kv hkv (by rw [hsid']; exact (beq_iff_eq.mp hbeq))
    have hrest : buildLookupGo (acc ++ [(sid, s)]) rest =
        .ok ((acc ++ [(sid, s)]) ++ rest.map (fun t => (idOf t, t))) := by
      rw [List.map_cons] at hnd
      obtain ⟨hhead, htail⟩ := List.nodup_cons.mp hnd
      apply ih
      · intro t ht
        exact hid t (List.mem_cons_of_mem _ ht)
      · exact htail
      · intro t ht kv hkv
        rcases List.mem_append.mp hkv with h | h
        · exact hacc t (List.mem_cons_of_mem _ ht) kv h
        · rw [List.mem_singleton] at h
          subst h
          show sid ≠ idOf t
          rw [← hsid']
          intro hEq
          exact hhead (hEq ▸ List.mem_map_of_mem idOf ht)
    show buildLookupGo acc (s :: rest) = _
    simp only [buildLookupGo, hsid]
    rw [hins, hrest]
    simp [hsid']
  
theorem spanLookupOf_eq (trace : Trace)
    (hid : ∀ s ∈ trace, s.id.isSome = true)
    (hnd : (trace.map idOf).Nodup) :
    spanLookupOf trace = .ok (trace.map (fun s => (idOf s, s))) := by
  have := buildLookupGo_eq trace [] hid hnd (by intro s _ kv hkv; cases hkv)
  simpa [spanLookupOf] using this

theorem lookupValues_map_eq (trace : Trace) :
    lookupValues (trace.map (fun s => (idOf s, s))) = trace := by
  unfold lookupValues
  rw [List.map_map]
  exact List.map_id trace

theorem childrenOf_map_eq (trace : Trace) (i : String) :
    childrenOf (trace.map (fun s => (idOf s, s))) i =
      trace.filter (fun s => s.parentId == some i) := by
  unfold childrenOf
  rw [lookupValues_map_eq]

theorem idOf_inj (trace : Trace) (hnd : (trace.map idOf).Nodup)
    {s t : Span} (hs : s ∈ trace) (ht : t ∈ trace) (h : idOf s = idOf t) : s = t :=
  List.inj_on_of_nodup_map hnd hs ht h

theorem find_id (trace : Trace)
    (hid : ∀ s ∈ trace, s.id.isSome = true)
    (hnd : (trace.map idOf).Nodup)
    {s : Span} (hs : s ∈ trace) :
    trace.find? (fun t => t.id == some (idOf s)) = some s := by
  induction trace with
  | nil => cases hs
  | cons h rest ih =>
    by_cases hhs : h = s
    · subst hhs
      have : (h.id == some (idOf h)) = true := by
        obtain ⟨hid', hh⟩ := Option.isSome_iff_exists.mp (hid h (List.mem_cons_self _ _))
        rw [hh]
        unfold idOf
        rw [hh]
        simp
      exact List.find?_cons_of_pos _ this
    · have hsrest : s ∈ rest := by
        rcases List.mem_cons.mp hs with h1 | h1
        · exact absurd h1.symm hhs
        · exact h1
      have hneq : (h.id == some (idOf s)) = false := by
        obtain ⟨hi, hh⟩ := Option.isSome_iff_exists.mp (hid h (List.mem_cons_self _ _))
        rw [hh]
        have : hi ≠ idOf s := by
          intro hEq
          have hihi : idOf h = hi := by unfold idOf; rw [hh]; rfl
          have hnd2 := hnd
          rw [List.map_cons] at hnd2
          exact (List.nodup_cons.mp hnd2).1
            ((hihi.trans hEq) ▸ List.mem_map_of_mem idOf hsrest)
        simp [this]
      rw [List.find?_cons_of_neg _ (by simp only [hneq]; exact Bool.false_ne_true)]
      rw [List.map_cons] at hnd
      exact ih (fun t ht => hid t (List.mem_cons_of_mem _ ht))
        ((List.nodup_cons.mp hnd).2) hsrest

theorem chainUp_mem (trace : Trace) :
    ∀ (k : ℕ) (t a : Span), t ∈ trace → chainUp trace k t = some a → a ∈ trace := by
  intro k
  induction k with
  | zero =>
    intro t a ht h
    cases h
    exact ht
  | succ k ih =>
    intro t a ht h
    simp only [chainUp, Option.bind_eq_some] at h
    obtain ⟨p, hp, hrest⟩ := h
    have hpmem : p ∈ trace := by
      unfold findParent at hp
      rw [Option.bind_eq_some] at hp
      obtain ⟨pid, _, hfind⟩ := hp
      exact List.mem_of_find?_eq_some hfind
    exact ih p a hpmem hrest

theorem chainUp_add (trace : Trace) :
    ∀ (a b : ℕ) (t : Span),
      chainUp trace (a + b) t = (chainUp trace a t).bind (chainUp trace b) := by
  intro a
  induction a with
  | zero =>
    intro b t
    rw [Nat.zero_add]
    rfl
  | succ a ih =>
    intro b t
    have : a + 1 + b = (a + b) + 1 := by omega
    rw [this]
    show (findParent trace t).bind (chainUp trace (a + b)) = _
    show _ = ((findParent trace t).bind (chainUp trace a)).bind (chainUp trace b)
    cases findParent trace t with
    | none => rfl
    | some p =>
      show chainUp trace (a + b) p = (chainUp trace a p).bind (chainUp trace b)
      exact ih b p


theorem findParent_spec (trace : Trace) {c p : Span}
    (hp : findParent trace c = some p) : p ∈ trace ∧ c.parentId = p.id := by
  unfold findParent at hp
  rw [Option.bind_eq_some] at hp
  obtain ⟨pid, hpid, hfind⟩ := hp
  refine ⟨List.mem_of_find?_eq_some hfind, ?_⟩
  have hpred := List.find?_some hfind
  have : p.id = some pid := beq_iff_eq.mp hpred
  rw [hpid, this]

theorem findParent_child (trace : Trace)
    (hid : ∀ s ∈ trace, s.id.isSome = true)
    (hnd : (trace.map idOf).Nodup)
    {c s : Span} (hs : s ∈ trace) (hpar : c.parentId = some (idOf s)) :
    findParent trace c = some s := by
  unfold findParent
  rw [hpar]
  show trace.find? (fun t => t.id == some (idOf s)) = some s
  exact find_id trace hid hnd hs

theorem chainUp_one (trace : Trace) (c : Span) :
    chainUp trace 1 c = findParent trace c := by
  show (findParent trace c).bind (chainUp trace 0) = findParent trace c
  cases findParent trace c <;> rfl

theorem chainUp_rk (trace : Trace) (rk : String → ℕ)
    (hrk : ∀ s ∈ trace, ∀ c ∈ trace, c.parentId = s.id → rk (idOf c) < rk (idOf s)) :
    ∀ (k : ℕ) (t a : Span), t ∈ trace → chainUp trace k t = some a →
      rk (idOf t) + k ≤ rk (idOf a) := by
  intro k
  induction k with
  | zero =>
    intro t a ht h
    cases h
    omega
  | succ k ih =>
    intro t a ht h
    simp only [chainUp, Option.bind_eq_some] at h
    obtain ⟨p, hp, hrest⟩ := h
    obtain ⟨hpmem, hpar⟩ := findParent_spec trace hp
    have h1 : rk (idOf t) < rk (idOf p) := hrk p hpmem t ht hpar
    have h2 := ih p a hpmem hrest
    omega

theorem mem_childrenOf_iff (trace : Trace) {i : String} {c : Span} :
    c ∈ childrenOf (trace.map (fun s => (idOf s, s))) i ↔
      c ∈ trace ∧ c.parentId = some i := by
  rw [childrenOf_map_eq, List.mem_filter]
  constructor
  · rintro ⟨h1, h2⟩
    exact ⟨h1, beq_iff_eq.mp h2⟩
  · rintro ⟨h1, h2⟩
    exact ⟨h1, beq_iff_eq.mpr h2⟩

theorem count_flatten (x : String) :
    ∀ (L : List (List String)), L.flatten.count x = (L.map (List.count x)).sum := by
  intro L
  induction L with
  | nil => rfl
  | cons h t ih =>
    simp only [List.flatten_cons, List.count_append, List.map_cons, List.sum_cons, ih]

theorem sum_le_one_of_unique {α : Type} (l : List α) (g : α → ℕ) (P : α → Prop)
    (hnd : l.Nodup) (h1 : ∀ c ∈ l, g c ≤ 1) (h0 : ∀ c ∈ l, g c ≠ 0 → P c)
    (huniq : ∀ c1 ∈ l, ∀ c2 ∈ l, P c1 → P c2 → c1 = c2) :
    (l.map g).sum ≤ 1 := by
  induction l with
  | nil => simp
  | cons c cs ih =>
    obtain ⟨hc, hcs⟩ := List.nodup_cons.mp hnd
    simp only [List.map_cons, List.sum_cons]
    by_cases hg : g c = 0
    · rw [hg, Nat.zero_add]
      exact ih hcs (fun d hd => h1 d (List.mem_cons_of_mem _ hd))
        (fun d hd => h0 d (List.mem_cons_of_mem _ hd))
        (fun d hd e he => huniq d (List.mem_cons_of_mem _ hd) e (List.mem_cons_of_mem _ he))
    · have hrest : (cs.map g).sum = 0 := by
        apply List.sum_eq_zero
        intro v hv
        obtain ⟨d, hd, rfl⟩ := List.mem_map.mp hv
        by_contra hdnz
        have hPd := h0 d (List.mem_cons_of_mem _ hd) hdnz
        have hPc := h0 c (List.mem_cons_self _ _) hg
        have := huniq d (List.mem_cons_of_mem _ hd) c (List.mem_cons_self _ _) hPd hPc
        subst this
        exact hc hd
      rw [hrest]
      have := h1 c (List.mem_cons_self _ _)
      omega

theorem sum_eq_one_single {α : Type} (l : List α) (g : α → ℕ) (a : α)
    (hnd : l.Nodup) (ha : a ∈ l) (h1 : g a = 1) (h0 : ∀ b ∈ l, b ≠ a → g b = 0) :
    (l.map g).sum = 1 := by
  induction l with
  | nil => cases ha
  | cons c cs ih =>
    obtain ⟨hc, hcs⟩ := List.nodup_cons.mp hnd
    simp only [List.map_cons, List.sum_cons]
    by_cases hca : c = a
    · subst hca
      have hrest : (cs.map g).sum = 0 := by
        apply List.sum_eq_zero
        intro v hv
        obtain ⟨d, hd, rfl⟩ := List.mem_map.mp hv
        refine h0 d (List.mem_cons_of_mem _ hd) ?_
        intro hEq
        subst hEq
        exact hc hd
      rw [hrest, h1]
    · rw [h0 c (List.mem_cons_self _ _) hca, Nat.zero_add]
      apply ih hcs
      · rcases List.mem_cons.mp ha with h | h
        · exact absurd h.symm hca
        · exact h
      · intro b hb hba
        exact h0 b (List.mem_cons_of_mem _ hb) hba


theorem span_id_eq (trace : Trace) (hid : ∀ s ∈ trace, s.id.isSome = true)
    {s : Span} (hs : s ∈ trace) : s.id = some (idOf s) := by
  obtain ⟨v, hv⟩ := Option.isSome_iff_exists.mp (hid s hs)
  rw [hv]
  unfold idOf
  rw [hv]
  rfl

theorem no_self_parent (trace : Trace) (rk : String → ℕ)
    (hid : ∀ s ∈ trace, s.id.isSome = true)
    (hrk : ∀ s ∈ trace, ∀ c ∈ trace, c.parentId = s.id → rk (idOf c) < rk (idOf s))
    {s : Span} (hs : s ∈ trace) (h : s.parentId = some (idOf s)) : False := by
  have := hrk s hs s hs (by rw [h, span_id_eq trace hid hs])
  omega

theorem anc_child_unique_le (trace : Trace) (rk : String → ℕ)
    (hid : ∀ s ∈ trace, s.id.isSome = true)
    (hnd : (trace.map idOf).Nodup)
    (hrk : ∀ s ∈ trace, ∀ c ∈ trace, c.parentId = s.id → rk (idOf c) < rk (idOf s))
    {s c1 c2 t : Span} (hs : s ∈ trace)
    (_hc1 : c1 ∈ trace) (hp1 : c1.parentId = some (idOf s))
    (hc2 : c2 ∈ trace) (hp2 : c2.parentId = some (idOf s))
    {k1 k2 : ℕ} (hch1 : chainUp trace k1 t = some c1) (hch2 : chainUp trace k2 t = some c2)
    (hle : k1 ≤ k2) : c1 = c2 := by
  obtain ⟨m, rfl⟩ := Nat.exists_eq_add_of_le hle
  rw [chainUp_add trace k1 m, hch1] at hch2
  have hch2' : chainUp trace m c1 = some c2 := hch2
  cases m with
  | zero =>
    cases hch2'
    rfl
  | succ m =>
    rw [show m + 1 = 1 + m by omega, chainUp_add trace 1 m, chainUp_one,
      findParent_child trace hid hnd hs hp1] at hch2'
    have hch2'' : chainUp trace m s = some c2 := hch2'
    cases m with
    | zero =>
      cases hch2''
      exact absurd hp2 (fun h => no_self_parent trace rk hid hrk hs h)
    | succ m =>
      have hup := chainUp_rk trace rk hrk (m + 1) s c2 hs hch2''
      have hdown := hrk s hs c2 hc2 (by rw [hp2, span_id_eq trace hid hs])
      omega

theorem anc_child_unique (trace : Trace) (rk : String → ℕ)
    (hid : ∀ s ∈ trace, s.id.isSome = true)
    (hnd : (trace.map idOf).Nodup)
    (hrk : ∀ s ∈ trace, ∀ c ∈ trace, c.parentId = s.id → rk (idOf c) < rk (idOf s))
    {s c1 c2 t : Span} (hs : s ∈ trace)
    (hc1 : c1 ∈ trace) (hp1 : c1.parentId = some (idOf s))
    (hc2 : c2 ∈ trace) (hp2 : c2.parentId = some (idOf s))
    {k1 k2 : ℕ} (hch1 : chainUp trace k1 t = some c1) (hch2 : chainUp trace k2 t = some c2) :
    c1 = c2 := by
  rcases le_total k1 k2 with h | h
  · exact anc_child_unique_le trace rk hid hnd hrk hs hc1 hp1 hc2 hp2 hch1 hch2 h
  · exact (anc_child_unique_le trace rk hid hnd hrk hs hc2 hp2 hc1 hp1 hch2 hch1 h).symm

theorem visit_count_bounds (trace : Trace) (rk : String → ℕ)
    (hid : ∀ s ∈ trace, s.id.isSome = true)
    (hnd : (trace.map idOf).Nodup)
    (hrk : ∀ s ∈ trace, ∀ c ∈ trace, c.parentId = s.id → rk (idOf c) < rk (idOf s)) :
    ∀ (n : ℕ) (s : Span), s ∈ trace → rk (idOf s) ≤ n →
      ∀ (t : Span), t ∈ trace → ∀ (f : ℕ),
        ((¬ ∃ k, chainUp trace k t = some s) →
          (postorderVisit f s (trace.map (fun u => (idOf u, u)))).count (idOf t) = 0) ∧
        (postorderVisit f s (trace.map (fun u => (idOf u, u)))).count (idOf t) ≤ 1 := by
  intro n
  induction n with
  | zero =>
    intro s hs hrk0 t ht f
    have hch : childrenOf (trace.map (fun u => (idOf u, u))) (idOf s) = [] := by
      rw [childrenOf_map_eq, List.filter_eq_nil_iff]
      intro c hc hbeq
      have hpar : c.parentId = some (idOf s) := beq_iff_eq.mp hbeq
      have := hrk s hs c hc (by rw [hpar, span_id_eq trace hid hs])
      omega
    cases f with
    | zero =>
      constructor <;> simp [postorderVisit]
    | succ f =>
      have hv : postorderVisit (f + 1) s (trace.map (fun u => (idOf u, u))) = [idOf s] := by
        rw [show postorderVisit (f + 1) s (trace.map (fun u => (idOf u, u))) =
          ((childrenOf (trace.map (fun u => (idOf u, u))) (idOf s)).map
            (fun c => postorderVisit f c (trace.map (fun u => (idOf u, u))))).flatten ++
              [idOf s] from rfl, hch]
        rfl
      rw [hv]
      constructor
      · intro hnanc
        have hne : ¬ (idOf s = idOf t) := by
          intro hEq
          have hseq := idOf_inj trace hnd hs ht hEq
          subst hseq
          exact hnanc ⟨0, rfl⟩
        simp [List.count_cons, hne]
      · simp only [List.count_cons, List.count_nil]
        split <;> omega
  | succ n ih =>
    intro s hs hrkn t ht f
    cases f with
    | zero =>
      constructor <;> simp [postorderVisit]
    | succ f =>
      have hv : postorderVisit (f + 1) s (trace.map (fun u => (idOf u, u))) =
          ((childrenOf (trace.map (fun u => (idOf u, u))) (idOf s)).map
            (fun c => postorderVisit f c (trace.map (fun u => (idOf u, u))))).flatten ++
              [idOf s] := rfl
      have hchfacts : ∀ c ∈ childrenOf (trace.map (fun u => (idOf u, u))) (idOf s),
          c ∈ trace ∧ c.parentId = some (idOf s) ∧ rk (idOf c) ≤ n :=
        fun c hc => by
          obtain ⟨hcm, hcp⟩ := (mem_childrenOf_iff trace).mp hc
          have := hrk s hs c hcm (by rw [hcp, span_id_eq trace hid hs])
          exact ⟨hcm, hcp, by omega⟩
      have hext : ∀ c ∈ childrenOf (trace.map (fun u => (idOf u, u))) (idOf s),
          (∃ k, chainUp trace k t = some c) → (∃ k, chainUp trace k t = some s) := by
        intro c hc ⟨k, hk⟩
        refine ⟨k + 1, ?_⟩
        rw [chainUp_add trace k 1, hk]
        show chainUp trace 1 c = some s
        rw [chainUp_one]
        exact findParent_child trace hid hnd hs ((hchfacts c hc).2.1)
      rw [hv, List.count_append, count_flatten, List.map_map]
      constructor
      · intro hnanc
        have hsingle : List.count (idOf t) [idOf s] = 0 := by
          have hne : ¬ (idOf s = idOf t) := by
            intro hEq
            have hseq := idOf_inj trace hnd hs ht hEq
            subst hseq
            exact hnanc ⟨0, rfl⟩
          simp [List.count_cons, hne]
        rw [hsingle, Nat.add_zero]
        apply List.sum_eq_zero
        intro v hv'
        obtain ⟨c, hc, rfl⟩ := List.mem_map.mp hv'
        obtain ⟨hcm, _, hcn⟩ := hchfacts c hc
        exact (ih c hcm hcn t ht f).1 (fun hanc => hnanc (hext c hc hanc))
      · by_cases hst : idOf s = idOf t
        · have hseq := idOf_inj trace hnd hs ht hst
          subst hseq
          have hsum0 : ((childrenOf (trace.map (fun u => (idOf u, u))) (idOf s)).map
              (List.count (idOf s) ∘ fun c =>
                postorderVisit f c (trace.map (fun u => (idOf u, u))))).sum = 0 := by
            apply List.sum_eq_zero
            intro v hv'
            obtain ⟨c, hc, rfl⟩ := List.mem_map.mp hv'
            obtain ⟨hcm, hcp, hcn⟩ := hchfacts c hc
            apply (ih c hcm hcn s hs f).1
            rintro ⟨k, hk⟩
            cases k with
            | zero =>
              cases hk
              exact no_self_parent trace rk hid hrk hs hcp
            | succ k =>
              have hup := chainUp_rk trace rk hrk (k + 1) s c hs hk
              have hdown := hrk s hs c hcm (by rw [hcp, span_id_eq trace hid hs])
              omega
          rw [hsum0, Nat.zero_add]
          simp [List.count_cons]
        · have hsingle : List.count (idOf t) [idOf s] = 0 := by
            simp [List.count_cons, hst]
          rw [hsingle, Nat.add_zero]
          have hchnd : (childrenOf (trace.map (fun u => (idOf u, u))) (idOf s)).Nodup := by
            rw [childrenOf_map_eq]
            exact (List.Nodup.of_map idOf hnd).filter _
          apply sum_le_one_of_unique _ _ (fun c => ∃ k, chainUp trace k t = some c) hchnd
          · intro c hc
            obtain ⟨hcm, _, hcn⟩ := hchfacts c hc
            exact (ih c hcm hcn t ht f).2
          · intro c hc hnz
            by_contra hnanc
            obtain ⟨hcm, _, hcn⟩ := hchfacts c hc
            exact hnz ((ih c hcm hcn t ht f).1 hnanc)
          · rintro c1 hc1 c2 hc2 ⟨k1, hk1⟩ ⟨k2, hk2⟩
            obtain ⟨hm1, hp1, _⟩ := hchfacts c1 hc1
            obtain ⟨hm2, hp2, _⟩ := hchfacts c2 hc2
            exact anc_child_unique trace rk hid hnd hrk hs hm1 hp1 hm2 hp2 hk1 hk2

theorem visit_count_ge (trace : Trace)
    (hid : ∀ s ∈ trace, s.id.isSome = true) :
    ∀ (k : ℕ) (t s : Span), t ∈ trace → chainUp trace k t = some s →
      ∀ f, k < f →
        1 ≤ (postorderVisit f s (trace.map (fun u => (idOf u, u)))).count (idOf t) := by
  intro k
  induction k with
  | zero =>
    intro t s ht h f hf
    cases h
    cases f with
    | zero => omega
    | succ f =>
      have hv : postorderVisit (f + 1) t (trace.map (fun u => (idOf u, u))) =
          ((childrenOf (trace.map (fun u => (idOf u, u))) (idOf t)).map
            (fun c => postorderVisit f c (trace.map (fun u => (idOf u, u))))).flatten ++
              [idOf t] := rfl
      rw [hv, List.count_append]
      have : List.count (idOf t) [idOf t] = 1 := by simp
      omega
  | succ k ih =>
    intro t s ht h f hf
    rw [show k + 1 = k + 1 from rfl, chainUp_add trace k 1, Option.bind_eq_some] at h
    obtain ⟨c, hc, h1c⟩ := h
    rw [chainUp_one] at h1c
    obtain ⟨hsmem, hpareq⟩ := findParent_spec trace h1c
    have hcmem : c ∈ trace := chainUp_mem trace k t c ht hc
    have hcpar : c.parentId = some (idOf s) := by
      rw [hpareq, span_id_eq trace hid hsmem]
    have hcchild : c ∈ childrenOf (trace.map (fun u => (idOf u, u))) (idOf s) :=
      (mem_childrenOf_iff trace).mpr ⟨hcmem, hcpar⟩
    cases f with
    | zero => omega
    | succ f =>
      have hv : postorderVisit (f + 1) s (trace.map (fun u => (idOf u, u))) =
          ((childrenOf (trace.map (fun u => (idOf u, u))) (idOf s)).map
            (fun c => postorderVisit f c (trace.map (fun u => (idOf u, u))))).flatten ++
              [idOf s] := rfl
      rw [hv, List.count_append, count_flatten, List.map_map]
      have hterm := ih t c ht hc f (by omega)
      have hmem : (postorderVisit f c (trace.map (fun u => (idOf u, u)))).count (idOf t) ∈
          ((childrenOf (trace.map (fun u => (idOf u, u))) (idOf s)).map
            (List.count (idOf t) ∘ fun c =>
              postorderVisit f c (trace.map (fun u => (idOf u, u))))) := by
        exact List.mem_map_of_mem _ hcchild
      have := List.single_le_sum (fun x _ => Nat.zero_le x) _ hmem
      omega


theorem exists_root_anc (trace : Trace) (rk : String → ℕ) (B : ℕ)
    (hid : ∀ s ∈ trace, s.id.isSome = true)
    (hnd : (trace.map idOf).Nodup)
    (hrk : ∀ s ∈ trace, ∀ c ∈ trace, c.parentId = s.id → rk (idOf c) < rk (idOf s))
    (hB : ∀ s ∈ trace, rk (idOf s) < B)
    (hroot : ∀ s ∈ trace, s.parentId = none ∨ ∃ p ∈ trace, s.parentId = p.id) :
    ∀ (n : ℕ) (t : Span), t ∈ trace → B - rk (idOf t) ≤ n →
      ∃ r ∈ trace, r.parentId = none ∧ ∃ k, chainUp trace k t = some r := by
  intro n
  induction n with
  | zero =>
    intro t ht hn
    exfalso
    have := hB t ht
    omega
  | succ n ih =>
    intro t ht hn
    cases hpt : t.parentId with
    | none => exact ⟨t, ht, hpt, 0, rfl⟩
    | some pid =>
      rcases hroot t ht with h | ⟨p, hp, hpeq⟩
      · rw [hpt] at h
        cases h
      · have hplt : rk (idOf t) < rk (idOf p) := hrk p hp t ht hpeq
        have hpB := hB p hp
        obtain ⟨r, hr, hrnone, k, hchain⟩ := ih p hp (by omega)
        refine ⟨r, hr, hrnone, 1 + k, ?_⟩
        rw [chainUp_add trace 1 k, chainUp_one]
        have hfp : findParent trace t = some p := by
          have hpid : t.parentId = some (idOf p) := by
            rw [hpeq, span_id_eq trace hid hp]
          exact findParent_child trace hid hnd hp hpid
        rw [hfp]
        exact hchain

theorem root_reach_eq_le (trace : Trace) {r1 r2 t : Span} {k1 k2 : ℕ}
    (hk1 : chainUp trace k1 t = some r1) (hk2 : chainUp trace k2 t = some r2)
    (h1 : r1.parentId = none) (hle : k1 ≤ k2) : r1 = r2 := by
  obtain ⟨m, rfl⟩ := Nat.exists_eq_add_of_le hle
  rw [chainUp_add trace k1 m, hk1] at hk2
  have hk2' : chainUp trace m r1 = some r2 := hk2
  cases m with
  | zero =>
    cases hk2'
    rfl
  | succ m =>
    rw [show m + 1 = 1 + m by omega, chainUp_add trace 1 m, chainUp_one] at hk2'
    have hfp : findParent trace r1 = none := by
      unfold findParent
      rw [h1]
      rfl
    rw [hfp] at hk2'
    cases hk2'

theorem root_unique (trace : Trace) {r1 r2 t : Span} {k1 k2 : ℕ}
    (hk1 : chainUp trace k1 t = some r1) (hk2 : chainUp trace k2 t = some r2)
    (h1 : r1.parentId = none) (h2 : r2.parentId = none) : r1 = r2 := by
  rcases le_total k1 k2 with h | h
  · exact root_reach_eq_le trace hk1 hk2 h1 h
  · exact (root_reach_eq_le trace hk2 hk1 h2 h).symm

theorem visit_mem_ids (trace : Trace) :
    ∀ (f : ℕ) (s : Span), s ∈ trace →
      ∀ x ∈ postorderVisit f s (trace.map (fun u => (idOf u, u))),
        ∃ u ∈ trace, idOf u = x := by
  intro f
  induction f with
  | zero =>
    intro s _ x hx
    simp [postorderVisit] at hx
  | succ f ih =>
    intro s hs x hx
    have hv : postorderVisit (f + 1) s (trace.map (fun u => (idOf u, u))) =
        ((childrenOf (trace.map (fun u => (idOf u, u))) (idOf s)).map
          (fun c => postorderVisit f c (trace.map (fun u => (idOf u, u))))).flatten ++
            [idOf s] := rfl
    rw [hv, List.mem_append] at hx
    rcases hx with hx | hx
    · obtain ⟨l, hl, hxl⟩ := List.mem_flatten.mp hx
      obtain ⟨c, hc, rfl⟩ := List.mem_map.mp hl
      exact ih c ((mem_childrenOf_iff trace).mp hc).1 x hxl
    · rw [List.mem_singleton] at hx
      exact ⟨s, hs, hx.symm⟩

theorem forest_count_one (trace : Trace) (rk : String → ℕ) (B : ℕ)
    (hid : ∀ s ∈ trace, s.id.isSome = true)
    (hnd : (trace.map idOf).Nodup)
    (hrk : ∀ s ∈ trace, ∀ c ∈ trace, c.parentId = s.id → rk (idOf c) < rk (idOf s))
    (hB : ∀ s ∈ trace, rk (idOf s) < B)
    (hroot : ∀ s ∈ trace, s.parentId = none ∨ ∃ p ∈ trace, s.parentId = p.id) :
    ∀ t ∈ trace,
      (postorderForest B trace (trace.map (fun u => (idOf u, u)))).count (idOf t) = 1 := by
  intro t ht
  obtain ⟨r, hr, hrnone, k, hchain⟩ :=
    exists_root_anc trace rk B hid hnd hrk hB hroot (B - rk (idOf t)) t ht (le_refl _)
  have hkB : k < B := by
    have := chainUp_rk trace rk hrk k t r ht hchain
    have := hB r hr
    omega
  unfold postorderForest
  rw [count_flatten, List.map_map]
  apply sum_eq_one_single _ _ r
  · exact ((List.Nodup.of_map idOf hnd).filter _)
  · rw [List.mem_filter]
    refine ⟨hr, ?_⟩
    rw [hrnone]
    rfl
  · show (postorderVisit B r (trace.map (fun u => (idOf u, u)))).count (idOf t) = 1
    have hge := visit_count_ge trace hid k t r ht hchain B hkB
    have hle := (visit_count_bounds trace rk hid hnd hrk (rk (idOf r)) r hr (le_refl _)
      t ht B).2
    omega
  · intro b hb hbr
    have hbmem : b ∈ trace := (List.mem_filter.mp hb).1
    have hbnone : b.parentId = none := by
      have := (List.mem_filter.mp hb).2
      simpa [Option.isNone_iff_eq_none] using this
    show (postorderVisit B b (trace.map (fun u => (idOf u, u)))).count (idOf t) = 0
    apply (visit_count_bounds trace rk hid hnd hrk (rk (idOf b)) b hbmem (le_refl _)
      t ht B).1
    rintro ⟨k', hk'⟩
    exact hbr (root_unique trace hk' hchain hbnone hrnone)

theorem forest_visit_perm (trace : Trace) (rk : String → ℕ) (B : ℕ)
    (hid : ∀ s ∈ trace, s.id.isSome = true)
    (hnd : (trace.map idOf).Nodup)
    (hrk : ∀ s ∈ trace, ∀ c ∈ trace, c.parentId = s.id → rk (idOf c) < rk (idOf s))
    (hB : ∀ s ∈ trace, rk (idOf s) < B)
    (hroot : ∀ s ∈ trace, s.parentId = none ∨ ∃ p ∈ trace, s.parentId = p.id) :
    (postorderForest B trace (trace.map (fun u => (idOf u, u)))).Perm (trace.map idOf) := by
  rw [List.perm_iff_count]
  intro x
  by_cases hx : x ∈ trace.map idOf
  · obtain ⟨t, ht, rfl⟩ := List.mem_map.mp hx
    rw [forest_count_one trace rk B hid hnd hrk hB hroot t ht]
    exact (List.count_eq_one_of_mem hnd hx).symm
  · rw [List.count_eq_zero.mpr, List.count_eq_zero.mpr hx]
    intro hmem
    unfold postorderForest at hmem
    obtain ⟨l, hl, hxl⟩ := List.mem_flatten.mp hmem
    obtain ⟨rt, hrt, rfl⟩ := List.mem_map.mp hl
    obtain ⟨u, hu, rfl⟩ := visit_mem_ids trace B rt (List.mem_filter.mp hrt).1 x hxl
    exact hx (List.mem_map_of_mem idOf hu)


theorem aggregate_stable (trace : Trace) (rk : String → ℕ)
    (hid : ∀ s ∈ trace, s.id.isSome = true)
    (_hnd : (trace.map idOf).Nodup)
    (hrk : ∀ s ∈ trace, ∀ c ∈ trace, c.parentId = s.id → rk (idOf c) < rk (idOf s))
    (patterns : List String) :
    ∀ (n : ℕ) (s : Span), s ∈ trace → rk (idOf s) ≤ n →
      ∀ f g, rk (idOf s) < f → rk (idOf s) < g →
        aggregateSpanRecursive patterns f s (trace.map (fun u => (idOf u, u))) =
          aggregateSpanRecursive patterns g s (trace.map (fun u => (idOf u, u))) := by
  intro n
  induction n with
  | zero =>
    intro s hs hr0 f g hf hg
    have hch : childrenOf (trace.map (fun u => (idOf u, u))) (idOf s) = [] := by
      rw [childrenOf_map_eq, List.filter_eq_nil_iff]
      intro c hc hbeq
      have hpar : c.parentId = some (idOf s) := beq_iff_eq.mp hbeq
      have := hrk s hs c hc (by rw [hpar, span_id_eq trace hid hs])
      omega
    cases f with
    | zero => omega
    | succ f =>
      cases g with
      | zero => omega
      | succ g =>
        rw [aggregate_no_children patterns f s _ hch, aggregate_no_children patterns g s _ hch]
  | succ n ih =>
    intro s hs hrn f g hf hg
    cases f with
    | zero => omega
    | succ f =>
      cases g with
      | zero => omega
      | succ g =>
        have hmap : (childrenOf (trace.map (fun u => (idOf u, u))) (s.id.getD "")).map
            (fun c => aggregateSpanRecursive patterns f c (trace.map (fun u => (idOf u, u)))) =
            (childrenOf (trace.map (fun u => (idOf u, u))) (s.id.getD "")).map
              (fun c => aggregateSpanRecursive patterns g c (trace.map (fun u => (idOf u, u)))) := by
          apply List.map_congr_left
          intro c hc
          have hc' : c ∈ childrenOf (trace.map (fun u => (idOf u, u))) (idOf s) := hc
          obtain ⟨hcm, hcp⟩ := (mem_childrenOf_iff trace).mp hc'
          have hlt := hrk s hs c hcm (by rw [hcp, span_id_eq trace hid hs])
          exact ih c hcm (by omega) f g (by omega) (by omega)
        have hunfF : aggregateSpanRecursive patterns (f + 1) s (trace.map (fun u => (idOf u, u))) =
            (if childrenOf (trace.map (fun u => (idOf u, u))) (s.id.getD "") = [] then
              ownContribution patterns s
             else
              if (((childrenOf (trace.map (fun u => (idOf u, u))) (s.id.getD "")).zip
                  ((childrenOf (trace.map (fun u => (idOf u, u))) (s.id.getD "")).map
                    (fun c => aggregateSpanRecursive patterns f c
                      (trace.map (fun u => (idOf u, u)))))).filter
                      (fun cv => decide (0 < cv.2))).length ≤ 1 then
                ownContribution patterns s +
                  ((childrenOf (trace.map (fun u => (idOf u, u))) (s.id.getD "")).map
                    (fun c => aggregateSpanRecursive patterns f c
                      (trace.map (fun u => (idOf u, u))))).sum
              else
                if checkConcurrency ((((childrenOf (trace.map (fun u => (idOf u, u)))
                    (s.id.getD "")).zip
                    ((childrenOf (trace.map (fun u => (idOf u, u))) (s.id.getD "")).map
                      (fun c => aggregateSpanRecursive patterns f c
                        (trace.map (fun u => (idOf u, u)))))).filter
                        (fun cv => decide (0 < cv.2))).map (fun cv => timedPair cv.1)) then
                  ownContribution patterns s +
                    pyMax ((((childrenOf (trace.map (fun u => (idOf u, u))) (s.id.getD "")).zip
                      ((childrenOf (trace.map (fun u => (idOf u, u))) (s.id.getD "")).map
                        (fun c => aggregateSpanRecursive patterns f c
                          (trace.map (fun u => (idOf u, u)))))).filter
                          (fun cv => decide (0 < cv.2))).map Prod.snd)
                else
                  ownContribution patterns s +
                    (((((childrenOf (trace.map (fun u => (idOf u, u))) (s.id.getD "")).zip
                      ((childrenOf (trace.map (fun u => (idOf u, u))) (s.id.getD "")).map
                        (fun c => aggregateSpanRecursive patterns f c
                          (trace.map (fun u => (idOf u, u)))))).filter
                          (fun cv => decide (0 < cv.2)))).map Prod.snd).sum) := rfl
        have hunfG : aggregateSpanRecursive patterns (g + 1) s (trace.map (fun u => (idOf u, u))) =
            (if childrenOf (trace.map (fun u => (idOf u, u))) (s.id.getD "") = [] then
              ownContribution patterns s
             else
              if (((childrenOf (trace.map (fun u => (idOf u, u))) (s.id.getD "")).zip
                  ((childrenOf (trace.map (fun u => (idOf u, u))) (s.id.getD "")).map
                    (fun c => aggregateSpanRecursive patterns g c
                      (trace.map (fun u => (idOf u, u)))))).filter
                      (fun cv => decide (0 < cv.2))).length ≤ 1 then
                ownContribution patterns s +
                  ((childrenOf (trace.map (fun u => (idOf u, u))) (s.id.getD "")).map
                    (fun c => aggregateSpanRecursive patterns g c
                      (trace.map (fun u => (idOf u, u))))).sum
              else
                if checkConcurrency ((((childrenOf (trace.map (fun u => (idOf u, u)))
                    (s.id.getD "")).zip
                    ((childrenOf (trace.map (fun u => (idOf u, u))) (s.id.getD "")).map
                      (fun c => aggregateSpanRecursive patterns g c
                        (trace.map (fun u => (idOf u, u)))))).filter
                        (fun cv => decide (0 < cv.2))).map (fun cv => timedPair cv.1)) then
                  ownContribution patterns s +
                    pyMax ((((childrenOf (trace.map (fun u => (idOf u, u))) (s.id.getD "")).zip
                      ((childrenOf (trace.map (fun u => (idOf u, u))) (s.id.getD "")).map
                        (fun c => aggregateSpanRecursive patterns g c
                          (trace.map (fun u => (idOf u, u)))))).filter
                          (fun cv => decide (0 < cv.2))).map Prod.snd)
                else
                  ownContribution patterns s +
                    (((((childrenOf (trace.map (fun u => (idOf u, u))) (s.id.getD "")).zip
                      ((childrenOf (trace.map (fun u => (idOf u, u))) (s.id.getD "")).map
                        (fun c => aggregateSpanRecursive patterns g c
                          (trace.map (fun u => (idOf u, u)))))).filter
                          (fun cv => decide (0 < cv.2)))).map Prod.snd).sum) := rfl
        rw [hunfF, hunfG, hmap]

theorem calc_stable (trace : Trace) (rk : String → ℕ) (B : ℕ)
    (hid : ∀ s ∈ trace, s.id.isSome = true)
    (hnd : (trace.map idOf).Nodup)
    (hrk : ∀ s ∈ trace, ∀ c ∈ trace, c.parentId = s.id → rk (idOf c) < rk (idOf s))
    (hB : ∀ s ∈ trace, rk (idOf s) < B) :
    ∀ (patterns : List String) (f g : ℕ), B ≤ f → B ≤ g →
      calculateFinalCriticalIoRecursive patterns f trace =
        calculateFinalCriticalIoRecursive patterns g trace := by
  intro patterns f g hf hg
  unfold calculateFinalCriticalIoRecursive
  rw [spanLookupOf_eq trace hid hnd]
  simp only [Except.map]
  apply congrArg
  have hmap : (trace.filter (fun s => s.parentId.isNone)).map
      (fun r => aggregateSpanRecursive patterns f r (trace.map (fun u => (idOf u, u)))) =
      (trace.filter (fun s => s.parentId.isNone)).map
        (fun r => aggregateSpanRecursive patterns g r (trace.map (fun u => (idOf u, u)))) := by
    apply List.map_congr_left
    intro r hr
    have hrm : r ∈ trace := (List.mem_filter.mp hr).1
    have := hB r hrm
    exact aggregate_stable trace rk hid hnd hrk patterns (rk (idOf r)) r hrm (le_refl _)
      f g (by omega) (by omega)
  by_cases hroots : trace.filter (fun s => s.parentId.isNone) = []
  · rw [if_pos hroots, if_pos hroots]
  · rw [if_neg hroots, if_neg hroots, hmap]

/-- C8: on a trace whose `parentId` links form a forest (ids present and
unique, a rank function strictly decreasing from parent to child and bounded
by `B`, every parent chain reaching a root), the recursive critical-path
aggregation terminates — its value is independent of the call-stack fuel once
the fuel reaches `B` — and its traversal visits each span exactly once: the
post-order visit list over all roots is a permutation of the trace's span ids. -/
theorem aggregate_terminates_visits_once :
    ∀ (trace : Trace) (rk : String → ℕ) (B : ℕ),
      (∀ s ∈ trace, s.id.isSome = true) →
      (trace.map idOf).Nodup →
      (∀ s ∈ trace, ∀ c ∈ trace, c.parentId = s.id → rk (idOf c) < rk (idOf s)) →
      (∀ s ∈ trace, rk (idOf s) < B) →
      (∀ s ∈ trace, s.parentId = none ∨ ∃ p ∈ trace, s.parentId = p.id) →
      (∀ (patterns : List String) (f g : ℕ), B ≤ f → B ≤ g →
        calculateFinalCriticalIoRecursive patterns f trace =
          calculateFinalCriticalIoRecursive patterns g trace) ∧
      (postorderForest B trace (trace.map (fun s => (idOf s, s)))).Perm (trace.map idOf) :=
  fun trace rk B hid hnd hrk hB hroot =>
    ⟨calc_stable trace rk B hid hnd hrk hB,
     forest_visit_perm trace rk B hid hnd hrk hB hroot⟩

/-- C8 witness: the three-span tree (root with two children), rank 1 for the
root and 0 for the children, fuel bound 2. -/
theorem aggregate_terminates_visits_once_witness :
    ((∀ s ∈ concurrentChildrenTrace, s.id.isSome = true) ∧
      (concurrentChildrenTrace.map idOf).Nodup ∧
      (∀ s ∈ concurrentChildrenTrace, ∀ c ∈ concurrentChildrenTrace,
        c.parentId = s.id →
          (if idOf c = "r" then 1 else 0) < (if idOf s = "r" then 1 else 0)) ∧
      (∀ s ∈ concurrentChildrenTrace, (if idOf s = "r" then 1 else 0) < 2) ∧
      (∀ s ∈ concurrentChildrenTrace,
        s.parentId = none ∨ ∃ p ∈ concurrentChildrenTrace, s.parentId = p.id)) ∧
      (∀ (patterns : List String) (f g : ℕ), 2 ≤ f → 2 ≤ g →
        calculateFinalCriticalIoRecursive patterns f concurrentChildrenTrace =
          calculateFinalCriticalIoRecursive patterns g concurrentChildrenTrace) ∧
      (postorderForest 2 concurrentChildrenTrace
        (concurrentChildrenTrace.map (fun s => (idOf s, s)))).Perm
          (concurrentChildrenTrace.map idOf) := by
  refine ⟨⟨by decide, by decide, by decide, by decide, by decide⟩, ?_⟩
  exact aggregate_terminates_visits_once concurrentChildrenTrace
    (fun i => if i = "r" then 1 else 0) 2 (by decide) (by decide) (by decide)
    (by decide) (by decide)

end TraceBench
